import Mathlib

/-!
# Verification of the gox template compiler (llyb120/gox)

Shallow embedding of the scanner, tokenizer and code emitter of the gox
SQL-template compiler, together with proofs about the claims of its
specification.

Strings are modelled as `List Char` (the sources index Go strings byte by
byte; every input considered here is ASCII, where bytes and characters
coincide).  Go's `-1` failure sentinels become `Option`.

Each scanning loop advances its cursor strictly on every iteration and
stops at the end of the scanned string, so it runs at most `length + 1`
iterations; the loops are translated with a structural gas parameter that
each iteration consumes, and every entry point supplies `length + 1` gas,
which the cursor bound makes sufficient — the gas-zero fallbacks are
unreachable from the entry points.  The mutually recursive emitter family
additionally recurses through freshly built strings (nested templates), so
it carries an explicit fuel parameter supplied by the theorems.
-/

namespace Gox

/-- Character strings, as lists of characters (Go indexes bytes; all inputs
here are ASCII). -/
abbrev Str := List Char

/-- `content[i]`: character at index `i` (guarded in the source; the default
is never reached on the guarded paths). -/
def gc (s : Str) (i : Nat) : Char := s.getD i ' '

/-- `content[a:b]`: the Go slice from `a` (inclusive) to `b` (exclusive). -/
def sub (s : Str) (a b : Nat) : Str := (s.drop a).take (b - a)

/-- Go `strings.TrimSpace` restricted to the ASCII whitespace that occurs in
the repository's templates. -/
def isSp (c : Char) : Bool := c = ' ' || c = '\t' || c = '\n' || c = '\r'

/-- Trim leading and trailing whitespace (`strings.TrimSpace`). -/
def trimS (s : Str) : Str :=
  ((s.dropWhile isSp).reverse.dropWhile isSp).reverse

/-- `strings.HasPrefix`. -/
def hasPrefixC : Str → Str → Bool
  | _, [] => true
  | [], _ :: _ => false
  | c :: s, d :: p => c = d && hasPrefixC s p

/-- `strings.Contains` for a single character. -/
def containsC (s : Str) (c : Char) : Bool := s.contains c

/-- identifier characters `[A-Za-z0-9_]` (`isFollowingIdentifier`'s test). -/
def isIdentChar (c : Char) : Bool :=
  ('a' ≤ c && c ≤ 'z') || ('A' ≤ c && c ≤ 'Z') || ('0' ≤ c && c ≤ '9') || c = '_'

/-! ## Skipper primitives -/

/-- the scanning loop of `skipStringLiteral`. -/
def sslLoop (content : Str) (quote : Char) : Nat → Nat → Nat
  | 0, i => i
  | gas + 1, i =>
    if i < content.length ∧ gc content i ≠ quote then
      if gc content i = '\\' ∧ i + 1 < content.length ∧ quote ≠ '`' then
        sslLoop content quote gas (i + 2)
      else
        sslLoop content quote gas (i + 1)
    else
      if i < content.length then i + 1 else i

/-- `skipStringLiteral content pos quote`: skip a string literal that starts
at `pos` with the quote character `quote`; backslash escapes are honoured
except inside raw backtick strings.  Returns the index just past the closing
quote (source: `skipStringLiteral`). -/
def skipStringLiteral (content : Str) (pos : Nat) (quote : Char) : Nat :=
  if pos ≥ content.length ∨ gc content pos ≠ quote then pos
  else sslLoop content quote (content.length + 1) (pos + 1)

theorem sslLoop_ge (content : Str) (quote : Char) :
    ∀ gas i, i ≤ sslLoop content quote gas i := by
  intro gas
  induction gas with
  | zero => intro i; exact le_refl _
  | succ gas ih =>
    intro i
    rw [sslLoop]
    split
    · split
      · exact le_trans (by omega) (ih (i + 2))
      · exact le_trans (by omega) (ih (i + 1))
    · split <;> omega

/-- On the guarded path (`content[pos] = quote`, `pos` in bounds) the string
skipper advances strictly. -/
theorem skipStringLiteral_gt (content : Str) (pos : Nat) (quote : Char)
    (hlt : pos < content.length) (hq : gc content pos = quote) :
    pos < skipStringLiteral content pos quote := by
  rw [skipStringLiteral, if_neg (by push_neg; exact ⟨by omega, hq⟩)]
  have := sslLoop_ge content quote (content.length + 1) (pos + 1)
  omega

theorem skipStringLiteral_ge (content : Str) (pos : Nat) (quote : Char) :
    pos ≤ skipStringLiteral content pos quote := by
  rw [skipStringLiteral]
  split
  · exact le_refl _
  · have := sslLoop_ge content quote (content.length + 1) (pos + 1); omega

/-- the scanning loop of `findMatchingQuote`. -/
def fmqLoop (content : Str) (quoteChar : Char) (isRawString : Bool) :
    Nat → Nat → Option Nat
  | 0, _ => none
  | gas + 1, i =>
    if i < content.length then
      if gc content i = quoteChar then some i
      else if ¬isRawString ∧ gc content i = '\\' ∧ i + 1 < content.length then
        fmqLoop content quoteChar isRawString gas (i + 2)
      else
        fmqLoop content quoteChar isRawString gas (i + 1)
    else
      none

/-- `findMatchingQuote content start quoteChar isRawString`: index of the
closing quote, scanning from `start`, honouring backslash escapes unless the
string is raw (source: `findMatchingQuote`).  `none` models the `-1` result. -/
def findMatchingQuote (content : Str) (start : Nat) (quoteChar : Char)
    (isRawString : Bool) : Option Nat :=
  fmqLoop content quoteChar isRawString (content.length + 1) start

theorem fmqLoop_ge (content : Str) (quoteChar : Char) (isRaw : Bool) :
    ∀ gas i e, fmqLoop content quoteChar isRaw gas i = some e → i ≤ e := by
  intro gas
  induction gas with
  | zero => intro i e h; exact absurd h (by simp [fmqLoop])
  | succ gas ih =>
    intro i e h
    rw [fmqLoop] at h
    split at h
    · split at h
      · simp only [Option.some.injEq] at h; omega
      · split at h
        · have := ih (i + 2) e h; omega
        · have := ih (i + 1) e h; omega
    · exact absurd h (by simp)

theorem findMatchingQuote_ge (content : Str) (start : Nat) (quoteChar : Char)
    (isRaw : Bool) (e : Nat) (h : findMatchingQuote content start quoteChar isRaw = some e) :
    start ≤ e :=
  fmqLoop_ge content quoteChar isRaw (content.length + 1) start e h

/-- the scanning loop of `findMatchingBrace`. -/
def fmbLoop (content : Str) (start : Nat) : Nat → Nat → Nat → Option (Str × Nat)
  | 0, _, _ => none
  | gas + 1, i, braceCount =>
    if i < content.length ∧ braceCount > 0 then
      if gc content i = '{' then fmbLoop content start gas (i + 1) (braceCount + 1)
      else if gc content i = '}' then fmbLoop content start gas (i + 1) (braceCount - 1)
      else if gc content i = '"' ∨ gc content i = '\'' ∨ gc content i = '`' then
        fmbLoop content start gas (skipStringLiteral content i (gc content i)) braceCount
      else fmbLoop content start gas (i + 1) braceCount
    else
      if braceCount = 0 then some (sub content start (i - 1), i - 1) else none

/-- `findMatchingBrace content start`: `start` points just past an opening
`{`; walk forward counting `{`/`}`, stepping over string literals, and return
the enclosed slice together with the index of the closing `}` (source:
`findMatchingBrace`; `none` models the `("", -1)` failure). -/
def findMatchingBrace (content : Str) (start : Nat) : Option (Str × Nat) :=
  fmbLoop content start (content.length + 1) start 1

/-- the scanning loop of `findMatchingParen`. -/
def fmpLoop (content : Str) (start : Nat) : Nat → Nat → Nat → Option (Str × Nat)
  | 0, _, _ => none
  | gas + 1, i, parenCount =>
    if i < content.length ∧ parenCount > 0 then
      if gc content i = '(' then fmpLoop content start gas (i + 1) (parenCount + 1)
      else if gc content i = ')' then fmpLoop content start gas (i + 1) (parenCount - 1)
      else if gc content i = '"' ∨ gc content i = '\'' ∨ gc content i = '`' then
        fmpLoop content start gas (skipStringLiteral content i (gc content i)) parenCount
      else fmpLoop content start gas (i + 1) parenCount
    else
      if parenCount = 0 then some (sub content start (i - 1), i - 1) else none

/-- `findMatchingParen`: like `findMatchingBrace`, for `(`/`)` (source:
`findMatchingParen`). -/
def findMatchingParen (content : Str) (start : Nat) : Option (Str × Nat) :=
  fmpLoop content start (content.length + 1) start 1

theorem fmbLoop_le (content : Str) (start : Nat) :
    ∀ gas i braceCount c e,
      fmbLoop content start gas i braceCount = some (c, e) → i ≤ e + 1 := by
  intro gas
  induction gas with
  | zero => intro i n c e h; exact absurd h (by simp [fmbLoop])
  | succ gas ih =>
    intro i n c e h
    rw [fmbLoop] at h
    split at h
    · split at h
      · have := ih _ _ _ _ h; omega
      · split at h
        · have := ih _ _ _ _ h; omega
        · split at h
          · have := ih _ _ _ _ h
            have := skipStringLiteral_ge content i (gc content i)
            omega
          · have := ih _ _ _ _ h; omega
    · split at h
      · simp only [Option.some.injEq, Prod.mk.injEq] at h; omega
      · exact absurd h (by simp)

/-- A successful `findMatchingBrace` from `start` closes at or after
`start - 1`. -/
theorem findMatchingBrace_le (content : Str) (start : Nat) (c : Str) (e : Nat)
    (h : findMatchingBrace content start = some (c, e)) : start ≤ e + 1 :=
  fmbLoop_le content start (content.length + 1) start 1 c e h

/-- `isFollowingIdentifier content parenPos`: the `(` at `parenPos` directly
follows an identifier character (source: `isFollowingIdentifier`). -/
def isFollowingIdentifier (content : Str) (parenPos : Nat) : Bool :=
  if parenPos = 0 then false else isIdentChar (gc content (parenPos - 1))

/-- the inner function-call-skipping loop of `findControlStructureParen`. -/
def fcspSkipCall (content : Str) : Nat → Nat → Nat → Nat
  | 0, i, _ => i
  | gas + 1, i, parenCount =>
    if i < content.length ∧ parenCount > 0 then
      if gc content i = '(' then fcspSkipCall content gas (i + 1) (parenCount + 1)
      else if gc content i = ')' then fcspSkipCall content gas (i + 1) (parenCount - 1)
      else if gc content i = '"' ∨ gc content i = '\'' ∨ gc content i = '`' then
        fcspSkipCall content gas (skipStringLiteral content i (gc content i)) parenCount
      else fcspSkipCall content gas (i + 1) parenCount
    else i

/-- the scanning loop of `findControlStructureParen`. -/
def fcspLoop (content : Str) : Nat → Nat → Option Nat → Option Nat
  | 0, _, lastParen => lastParen
  | gas + 1, i, lastParen =>
    if i < content.length then
      if gc content i = '(' then
        if isFollowingIdentifier content i then
          fcspLoop content gas (fcspSkipCall content (content.length + 1) (i + 1) 1) lastParen
        else
          fcspLoop content gas (i + 1) (some i)
      else if gc content i = '"' ∨ gc content i = '\'' ∨ gc content i = '`' then
        fcspLoop content gas (skipStringLiteral content i (gc content i)) lastParen
      else fcspLoop content gas (i + 1) lastParen
    else lastParen

/-- `findControlStructureParen content`: index of the last `(` in `content`
that does not directly follow an identifier character, skipping over function
calls and string literals (source: `findControlStructureParen`; `none` models
`-1`). -/
def findControlStructureParen (content : Str) : Option Nat :=
  fcspLoop content (content.length + 1) 0 none

/-- scan from `start` to the next `\n`/`\r` or the end of `content` (the
line-end loops of `processSQLPartForParams` and `trySmartScopeProcessing`). -/
def stleLoop (content : Str) : Nat → Nat → Nat
  | 0, start => start
  | gas + 1, start =>
    if start < content.length ∧ gc content start ≠ '\n' ∧ gc content start ≠ '\r' then
      stleLoop content gas (start + 1)
    else start

/-- the line-end scan (see `stleLoop`). -/
def scanToLineEnd (content : Str) (start : Nat) : Nat :=
  stleLoop content (content.length + 1) start

theorem stleLoop_ge (content : Str) :
    ∀ gas start, start ≤ stleLoop content gas start := by
  intro gas
  induction gas with
  | zero => intro start; exact le_refl _
  | succ gas ih =>
    intro start
    rw [stleLoop]
    split
    · exact le_trans (by omega) (ih (start + 1))
    · exact le_refl _

theorem scanToLineEnd_ge (content : Str) (start : Nat) :
    start ≤ scanToLineEnd content start :=
  stleLoop_ge content (content.length + 1) start

/-- the trailing space/tab trimming of the `@xxx` end position (tokenizer,
`atEnd` loop). -/
def backTrimWS (content : Str) (low : Nat) : Nat → Nat
  | 0 => 0
  | pos + 1 =>
    if low < pos + 1 ∧ (gc content pos = ' ' ∨ gc content pos = '\t') then
      backTrimWS content low pos
    else pos + 1

/-- the scanning loop of `findLineEndBr`. -/
def flebLoop (content : Str) (atPos : Nat) : Nat → Nat → Option Nat → Nat × Option Nat
  | 0, lineEnd, bracePos => (lineEnd, bracePos)
  | gas + 1, lineEnd, bracePos =>
    if lineEnd < content.length ∧ gc content lineEnd ≠ '\n' ∧ gc content lineEnd ≠ '\r' then
      let bracePos' :=
        if gc content lineEnd = '{' ∧ bracePos = none ∧ atPos + 1 ≤ lineEnd - 1 ∧
            gc content (lineEnd - 1) ≠ '#' ∧ gc content (lineEnd - 1) ≠ '$' ∧
            gc content (lineEnd - 1) ≠ '@' then
          some lineEnd
        else bracePos
      flebLoop content atPos gas (lineEnd + 1) bracePos'
    else (lineEnd, bracePos)

/-- the line-end scan of the `@xxx` shorthand, recording the first `{` on the
line that is not part of `#{`/`${`/`@{` (tokenizer and
`processCodeBlockExpressions`; `atPos` is the position of the `@`). -/
def findLineEndBr (content : Str) (start atPos : Nat) : Nat × Option Nat :=
  flebLoop content atPos (content.length + 1) start none

/-- result record of `trySmartScopeProcessing` (source: `SmartScopeResult`). -/
structure SmartScopeResult where
  shouldHandle : Bool
  endPos : Nat
  lineEndPos : Nat
  blockContent : Str
  deriving DecidableEq, Repr

/-- `trySmartScopeProcessing`: decide whether an `@` line is promoted to a
multi-line smart-scope block.  `basePos` is the position of the `@`,
`lineContent` the current line after the `@`, `fullContent` the content from
just after the `@`, `totalContent` the whole template body (source:
`trySmartScopeProcessing`). -/
def trySmartScopeProcessing (smartScopeMode : Bool) (basePos : Nat)
    (lineContent fullContent totalContent : Str) : SmartScopeResult :=
  if ¬smartScopeMode ∨ ¬containsC lineContent '(' then ⟨false, 0, 0, []⟩
  else
    match findControlStructureParen lineContent with
    | none => ⟨false, 0, 0, []⟩
    | some parenIndex =>
      match findMatchingParen fullContent (parenIndex + 1) with
      | none => ⟨false, 0, 0, []⟩
      | some (_, endParen) =>
        if endParen < lineContent.length then ⟨false, 0, 0, []⟩
        else
          let actualEndPos := basePos + 1 + endParen
          let blockEndLine := scanToLineEnd totalContent (actualEndPos + 1)
          ⟨true, actualEndPos, blockEndLine, sub totalContent (basePos + 1) blockEndLine⟩

/-! ## Template tokenizer -/

/-- token kinds of the template tokenizer (source: `SQLTokenType`). -/
inductive SQLTokenType where
  | text | param | textExpr | atBlock | atLine | codeBlock | doubleAtBlock
  deriving DecidableEq, Repr

/-- one token of the template tokenizer (source: `SQLToken`). -/
structure SQLToken where
  type : SQLTokenType
  content : Str
  start : Nat
  endPos : Nat
  deriving DecidableEq, Repr

/-- the "flush accumulated text" step of the tokenizer: emit a Text token for
`content[textStart:i]` when the run is nonempty and not pure whitespace
(source: the repeated `if i > textStart { ... if TrimSpace(text) != "" ... }`
blocks of `tokenizeSQLContent`). -/
def flushTok (content : Str) (textStart i : Nat) : List SQLToken :=
  if textStart < i ∧ trimS (sub content textStart i) ≠ [] then
    [⟨.text, sub content textStart i, textStart, i⟩]
  else []

/-- the main scanning loop of `tokenizeSQLContent`.

The Go loop is one iteration per cursor value; a sigil branch whose
`findMatchingBrace` fails falls through to the remaining checks of the same
iteration, but those all test `content[i]` and are vacuously false there, so
the translation resumes directly at `i+1` with `textStart` unchanged — as
the source does. -/
def tokLoop (smart : Bool) (content : Str) : Nat → Nat → Nat → List SQLToken
  | 0, _, _ => []
  | gas + 1, i, textStart =>
    if i < content.length then
      if i + 1 < content.length ∧ gc content i = '#' ∧ gc content (i + 1) = '{' then
        -- `#{expr}` parameter sigil
        match findMatchingBrace content (i + 2) with
        | some (exprContent, e) =>
          flushTok content textStart i ++
            ⟨.param, exprContent, i, e + 1⟩ :: tokLoop smart content gas (e + 1) (e + 1)
        | none => flushTok content textStart i ++ tokLoop smart content gas (i + 1) textStart
      else if i + 1 < content.length ∧ gc content i = '$' ∧ gc content (i + 1) = '{' then
        -- `${expr}` text-expression sigil
        match findMatchingBrace content (i + 2) with
        | some (exprContent, e) =>
          flushTok content textStart i ++
            ⟨.textExpr, exprContent, i, e + 1⟩ :: tokLoop smart content gas (e + 1) (e + 1)
        | none => flushTok content textStart i ++ tokLoop smart content gas (i + 1) textStart
      else if i + 1 < content.length ∧ gc content i = '@' then
        if i + 2 < content.length ∧ gc content (i + 1) = '@' ∧ gc content (i + 2) = '{' then
          -- `@@{...}` query block
          match findMatchingBrace content (i + 3) with
          | some (blockContent, e) =>
            flushTok content textStart i ++
              ⟨.doubleAtBlock, blockContent, i, e + 1⟩ ::
              tokLoop smart content gas (e + 1) (e + 1)
          | none => flushTok content textStart i ++ tokLoop smart content gas (i + 1) textStart
        else if gc content (i + 1) = '{' then
          -- `@{...}` block
          match findMatchingBrace content (i + 2) with
          | some (blockContent, e) =>
            flushTok content textStart i ++
              ⟨.atBlock, blockContent, i, e + 1⟩ :: tokLoop smart content gas (e + 1) (e + 1)
          | none => flushTok content textStart i ++ tokLoop smart content gas (i + 1) textStart
        else
          -- `@xxx` shorthand up to the end of the line
          let fl := findLineEndBr content (i + 1) i
          let atEnd := match fl.2 with
            | some b => backTrimWS content (i + 1) b
            | none => fl.1
          let atContent := sub content (i + 1) atEnd
          let smartResult :=
            trySmartScopeProcessing smart i atContent (content.drop (i + 1)) content
          if smartResult.shouldHandle then
            flushTok content textStart i ++
              ⟨.atBlock, trimS smartResult.blockContent, i, smartResult.lineEndPos⟩ ::
              ⟨.text, ['\n'], smartResult.lineEndPos, smartResult.lineEndPos⟩ ::
              tokLoop smart content gas smartResult.lineEndPos smartResult.lineEndPos
          else
            let atTok : List SQLToken :=
              if trimS atContent ≠ [] then [⟨.atLine, trimS atContent, i, atEnd⟩] else []
            match fl.2 with
            | some b =>
              flushTok content textStart i ++ atTok ++
                ⟨.text, ['\n'], atEnd, atEnd⟩ :: tokLoop smart content gas b b
            | none =>
              flushTok content textStart i ++ atTok ++
                ⟨.text, ['\n'], fl.1, fl.1⟩ :: tokLoop smart content gas fl.1 fl.1
      else if gc content i = '{' ∧ (i = 0 ∨ (gc content (i - 1) ≠ '#' ∧
          gc content (i - 1) ≠ '$' ∧ gc content (i - 1) ≠ '@')) then
        -- bare `{...}` code block
        match findMatchingBrace content (i + 1) with
        | some (exprContent, e) =>
          flushTok content textStart i ++
            ⟨.codeBlock, exprContent, i, e + 1⟩ :: tokLoop smart content gas (e + 1) (e + 1)
        | none => flushTok content textStart i ++ tokLoop smart content gas (i + 1) textStart
      else tokLoop smart content gas (i + 1) textStart
    else
      -- final flush of the trailing text
      if textStart < content.length ∧ trimS (content.drop textStart) ≠ [] then
        [⟨.text, content.drop textStart, textStart, content.length⟩]
      else []

/-- `tokenizeSQLContent`: single linear pass turning a template body into the
token sequence (source: `tokenizeSQLContent`; `smart` is the parser's
`smartScopeMode` field). -/
def tokenizeSQLContent (smart : Bool) (content : Str) : List SQLToken :=
  tokLoop smart content (content.length + 1) 0 0

/-! ## Nodes, Go expressions and emitter helpers -/

/-- node kinds of a parsed template (source: `SQLExpressionType`). -/
inductive SQLExpressionType where
  | exprText | exprParam | exprAtText | exprCode | exprDoubleAtQuery
  deriving DecidableEq, Repr

/-- model of the `go/ast` expression shapes that `exprToString` handles.  The
`other` constructor models every remaining `ast.Expr`, carrying the rendering
that `go/format` would produce (`none` models a formatting error). -/
inductive GoExpr where
  | ident (name : Str)
  | basicLit (value : Str)
  | selector (x : GoExpr) (sel : Str)
  | call (fn : GoExpr) (args : List GoExpr)
  | unary (op : Str) (x : GoExpr)
  | binary (x : GoExpr) (op : Str) (y : GoExpr)
  | paren (x : GoExpr)
  | other (rendered : Option Str)

/-- `exprToString` (source: `exprToString`; the `other` case models the
`go/format` fallback, returning the `/* parse_error */` marker on failure). -/
def exprToString : GoExpr → Str
  | .ident n => n
  | .basicLit v => v
  | .selector x sel => exprToString x ++ '.' :: sel
  | .call fn args =>
    exprToString fn ++
      '(' :: (List.intercalate ", ".toList (args.attach.map fun a => exprToString a.1)) ++ [')']
  | .unary op x => op ++ exprToString x
  | .binary x op y => exprToString x ++ ' ' :: op ++ ' ' :: exprToString y
  | .paren x => '(' :: exprToString x ++ [')']
  | .other r => r.getD "/* parse_error */".toList
termination_by e => sizeOf e
decreasing_by
  all_goals simp_wf
  all_goals first
    | omega
    | (have hsz := List.sizeOf_lt_of_mem a.2; omega)

/-- a node of a parsed template (source: `SQLText` / `SQLExpression`,
implementing `SQLNode`; positions are never read by the emitter and are
omitted). -/
inductive SQLNode where
  | sqlText (text : Str)
  | sqlExpression (type : SQLExpressionType) (content : Str) (expr : Option GoExpr)

/-- a parsed template block (source: `SQLBlock`). -/
structure SQLBlock where
  content : List SQLNode
  varName : Str

/-- an oracle for Go's `parser.ParseExpr` (external `go/parser` library): the
embedding is parametric in it, so every theorem below holds for every
behaviour of the host-language expression parser. -/
abbrev ParseOracle := Str → Option GoExpr

/-- `tryParseExpr` (source: `tryParseExpr`; `parser.ParseExpr` itself is the
oracle `tp`). -/
def tryParseExpr (tp : ParseOracle) (content : Str) : Option GoExpr :=
  let content := trimS content
  if content = [] then none else tp content

/-- `tokensToNodes` (source: `tokensToNodes`). -/
def tokensToNodes (tp : ParseOracle) (tokens : List SQLToken) : List SQLNode :=
  tokens.map fun token =>
    match token.type with
    | .text => .sqlText token.content
    | .param => .sqlExpression .exprParam token.content (tryParseExpr tp token.content)
    | .textExpr => .sqlExpression .exprText token.content (tryParseExpr tp token.content)
    | .atBlock => .sqlExpression .exprAtText token.content none
    | .atLine => .sqlExpression .exprAtText token.content none
    | .doubleAtBlock => .sqlExpression .exprDoubleAtQuery token.content none
    | .codeBlock => .sqlExpression .exprCode token.content (tryParseExpr tp token.content)

/-- `parseSQLBlock` (source: `parseSQLBlock`; it never returns an error). -/
def parseSQLBlock (tp : ParseOracle) (smart : Bool) (sqlContent varName : Str) : SQLBlock :=
  ⟨tokensToNodes tp (tokenizeSQLContent smart sqlContent), varName⟩

/-- one hexadecimal digit (for `strconv.Quote`'s non-printable escapes). -/
def hexDigit (n : Nat) : Char :=
  if n < 10 then Char.ofNat ('0'.toNat + n) else Char.ofNat ('a'.toNat + n - 10)

/-- `strconv.Quote` on one character. -/
def quoteChar (c : Char) : Str :=
  if c = '"' then ['\\', '"']
  else if c = '\\' then ['\\', '\\']
  else if c = '\n' then ['\\', 'n']
  else if c = '\t' then ['\\', 't']
  else if c = '\r' then ['\\', 'r']
  else if 0x20 ≤ c.toNat ∧ c.toNat ≤ 0x7e then [c]
  else ['\\', 'x', hexDigit (c.toNat / 16 % 16), hexDigit (c.toNat % 16)]

/-- Go `strconv.Quote` (over the ASCII range used by this repository). -/
def goQuote (s : Str) : Str := '"' :: (s.map quoteChar).flatten ++ ['"']

/-- `%s.AddText(%s)` with a quoted string argument. -/
def addTextCall (builderName s : Str) : Str :=
  builderName ++ ".AddText(".toList ++ goQuote s ++ [')']

/-- `%s.AddText(%s)` with a raw expression argument. -/
def addTextCallRaw (builderName e : Str) : Str :=
  builderName ++ ".AddText(".toList ++ e ++ [')']

/-- `%s.AddParam(%s)` with a raw expression argument. -/
def addParamCallRaw (builderName e : Str) : Str :=
  builderName ++ ".AddParam(".toList ++ e ++ [')']

/-- Go `strings.Split(text, "\n")`. -/
def splitNl : Str → List Str
  | [] => [[]]
  | c :: rest =>
    if c = '\n' then [] :: splitNl rest
    else
      match splitNl rest with
      | [] => [[c]]
      | l :: ls => (c :: l) :: ls

/-- a line whose trimmed form starts with `//` or `--` (the comment-line test
of `generateGoCodeForSQL`'s text case). -/
def isCommentLine (l : Str) : Bool :=
  hasPrefixC (trimS l) ['/', '/'] || hasPrefixC (trimS l) ['-', '-']

/-- the per-line loop of `generateGoCodeForSQL`'s `SQLText` case, producing
the raw strings passed to `AddText` in order: comment lines are dropped
(together with their newline), every non-last line is followed by a `"\n"`
fragment, and a last empty line is dropped. -/
def textPiecesAux : List Str → List Str
  | [] => []
  | [l] => if isCommentLine l then [] else if l ≠ [] then [l] else []
  | l :: rest =>
    if isCommentLine l then textPiecesAux rest
    else l :: ['\n'] :: textPiecesAux rest

/-- the `AddText` payload sequence of one Text node. -/
def textPieces (t : Str) : List Str := textPiecesAux (splitNl t)

/-- first index where `pat` occurs in `s` (Go `strings.Index`). -/
def indexOfSub (s pat : Str) : Option Nat :=
  if hasPrefixC s pat then some 0
  else
    match s with
    | [] => none
    | _ :: rest => (indexOfSub rest pat).map (· + 1)

/-- decimal rendering of a number (for the generated `__double_at_query_%d`
variable names). -/
def natToStr (n : Nat) : Str := (toString n).toList

/-- the plain (string-literal-blind) brace-counting walk of
`processCodeBlockExpressions`'s standalone `#{...}`/`${...}` sweeps; returns
the final cursor and the remaining brace count. -/
def pbsLoop (s : Str) : Nat → Nat → Nat → Nat × Nat
  | 0, e, count => (e, count)
  | gas + 1, e, count =>
    if e < s.length ∧ count > 0 then
      let count' := if gc s e = '{' then count + 1
        else if gc s e = '}' then count - 1 else count
      pbsLoop s gas (e + 1) count'
    else (e, count)

/-- the plain brace scan (see `pbsLoop`). -/
def plainBraceScan (s : Str) (e count : Nat) : Nat × Nat :=
  pbsLoop s (s.length + 1) e count

/-- whitespace skip of `processSmartScopeContent`. -/
def swsLoop (s : Str) : Nat → Nat → Nat
  | 0, i => i
  | gas + 1, i =>
    if i < s.length ∧ (gc s i = ' ' ∨ gc s i = '\t' ∨ gc s i = '\n' ∨ gc s i = '\r') then
      swsLoop s gas (i + 1)
    else i

/-- the whitespace skip (see `swsLoop`). -/
def skipWS (s : Str) (i : Nat) : Nat := swsLoop s (s.length + 1) i

/-- scan of `processSmartScopeContent`'s SQL-text run: advance to the next
`{`/`#`/`$`/`@` or the end. -/
def stsLoop (s : Str) : Nat → Nat → Nat
  | 0, i => i
  | gas + 1, i =>
    if i < s.length ∧ gc s i ≠ '{' ∧ gc s i ≠ '#' ∧ gc s i ≠ '$' ∧ gc s i ≠ '@' then
      stsLoop s gas (i + 1)
    else i

/-- the SQL-text scan (see `stsLoop`). -/
def scanToSpecial (s : Str) (i : Nat) : Nat := stsLoop s (s.length + 1) i

/-- the `#{...}` sweep of `processCodeBlockExpressions` (plain brace count,
no string skipping). -/
def pCBEHashLoop (fuel : Nat) (result builderName : Str) : Str :=
  match fuel with
  | 0 => result
  | fuel + 1 =>
    match indexOfSub result ['#', '{'] with
    | none => result
    | some start =>
      let pr := plainBraceScan result (start + 2) 1
      if pr.2 = 0 then
        let paramExpr := trimS (sub result (start + 2) (pr.1 - 1))
        pCBEHashLoop fuel
          (sub result 0 start ++ addParamCallRaw builderName paramExpr ++ result.drop pr.1)
          builderName
      else result

/-- the `${...}` sweep of `processCodeBlockExpressions` (plain brace count,
no string skipping). -/
def pCBEDollarLoop (fuel : Nat) (result builderName : Str) : Str :=
  match fuel with
  | 0 => result
  | fuel + 1 =>
    match indexOfSub result ['$', '{'] with
    | none => result
    | some start =>
      let pr := plainBraceScan result (start + 2) 1
      if pr.2 = 0 then
        let varExpr := trimS (sub result (start + 2) (pr.1 - 1))
        pCBEDollarLoop fuel
          (sub result 0 start ++ addTextCallRaw builderName varExpr ++ result.drop pr.1)
          builderName
      else result

/-- the `flushText` closure of `processSQLPartForParams`: emit the buffered
text as one quoted `AddText` call. -/
def flushText (builderName textBuf : Str) : List Str :=
  if textBuf ≠ [] then [addTextCall builderName textBuf] else []

/-- the complex-`#{...}` wrapper of `generateGoCodeForSQL`'s Param case
(an inline function whose non-nil result is passed to `AddParam`). -/
def paramComplexWrapper (codeContent builderName : Str) : Str :=
  "if __result := func() interface\x7b\x7d \x7b\n\t\t\t".toList ++ codeContent ++
    "\n\t\t\treturn nil\n\t\t\x7d(); __result != nil \x7b\n\t\t\t".toList ++ builderName ++
    ".AddParam(__result)\n\t\t\x7d".toList

/-!
The emitter functions are mutually recursive through freshly built strings
(a code block may contain a nested template whose code block may contain
another template, and the rewrite loops of `processCodeBlockExpressions`
rescan their own output), so the whole family carries a fuel parameter that
every call consumes.  Exhausted fuel yields the neutral result of each
function; the theorems below supply their own (sufficient) fuel.
-/

mutual

/-- the `@@{...}` rewrite loop of `processCodeBlockExpressions` (its
`parseSQLBlock` call never fails, so the `/* @@{} parse error */` branch of
the source is dead). -/
def pCBEAtAtLoop (tp : ParseOracle) (smart : Bool) (fuel : Nat)
    (result builderName : Str) : Str :=
  match fuel with
  | 0 => result
  | fuel + 1 =>
    match indexOfSub result ['@', '@', '{'] with
    | none => result
    | some start =>
      match findMatchingBrace result (start + 3) with
      | none => result
      | some (blockContent, e) =>
        let varName := "__double_at_query_".toList ++ natToStr start
        let queryCode :=
          generateGoCodeForSQL tp smart fuel (parseSQLBlock tp smart blockContent varName)
        pCBEAtAtLoop tp smart fuel
          (sub result 0 start ++ queryCode ++ result.drop (e + 1)) builderName

/-- the `@{...}` rewrite loop of `processCodeBlockExpressions`. -/
def pCBEAtBraceLoop (tp : ParseOracle) (smart : Bool) (fuel : Nat)
    (result builderName : Str) : Str :=
  match fuel with
  | 0 => result
  | fuel + 1 =>
    match indexOfSub result ['@', '{'] with
    | none => result
    | some start =>
      match findMatchingBrace result (start + 2) with
      | none => result
      | some (blockContent, e) =>
        let pr := processSQLPartForParams tp smart fuel blockContent builderName
        let replacement :=
          if pr.2.length > 0 then
            List.intercalate "\n\t\t\t".toList
              ((if pr.1 ≠ [] then [addTextCall builderName pr.1] else []) ++ pr.2)
          else
            if pr.1 ≠ [] then addTextCall builderName pr.1 else []
        pCBEAtBraceLoop tp smart fuel
          (sub result 0 start ++ replacement ++ result.drop (e + 1)) builderName

/-- the single-line `@xxx` rewrite loop of `processCodeBlockExpressions`. -/
def pCBEAtLineLoop (tp : ParseOracle) (smart : Bool) (fuel : Nat)
    (searchStart : Nat) (result builderName : Str) : Str :=
  match fuel with
  | 0 => result
  | fuel + 1 =>
    match indexOfSub (result.drop searchStart) ['@'] with
    | none => result
    | some idx0 =>
      let idx := idx0 + searchStart
      if idx + 2 < result.length ∧ gc result (idx + 1) = '@' ∧ gc result (idx + 2) = '{' then
        pCBEAtLineLoop tp smart fuel (idx + 3) result builderName
      else if idx + 1 < result.length ∧ gc result (idx + 1) = '{' then
        pCBEAtLineLoop tp smart fuel (idx + 2) result builderName
      else
        let fl := findLineEndBr result idx idx
        let lineContent := sub result (idx + 1) fl.1
        let smartResult :=
          trySmartScopeProcessing smart idx lineContent (result.drop (idx + 1)) result
        if smartResult.shouldHandle then
          let parts := addTextCall builderName ['\n'] ::
            processSmartScopeContent tp smart fuel smartResult.blockContent builderName
          let replacement := List.intercalate "\n\t\t\t".toList parts
          pCBEAtLineLoop tp smart fuel (idx + replacement.length)
            (sub result 0 idx ++ replacement ++ result.drop smartResult.lineEndPos) builderName
        else
          let atEnd := match fl.2 with
            | some b => backTrimWS result (idx + 1) b
            | none => fl.1
          let lineForDefault := trimS (sub result (idx + 1) atEnd)
          if lineForDefault ≠ [] then
            let pr := processSQLPartForParams tp smart fuel lineForDefault builderName
            let parts := addTextCall builderName ['\n'] ::
              ((if pr.1 ≠ [] then [addTextCall builderName pr.1] else []) ++ pr.2 ++
                (if fl.2 ≠ none then [addTextCall builderName ['\n']] else []))
            let replacement := List.intercalate "\n\t\t\t".toList parts
            match fl.2 with
            | some _ =>
              pCBEAtLineLoop tp smart fuel (idx + replacement.length)
                (sub result 0 idx ++ replacement ++ "\n\t\t\t".toList ++ result.drop atEnd)
                builderName
            | none =>
              pCBEAtLineLoop tp smart fuel (idx + replacement.length)
                (sub result 0 idx ++ replacement ++ result.drop fl.1) builderName
          else
            match fl.2 with
            | some b => pCBEAtLineLoop tp smart fuel b result builderName
            | none => pCBEAtLineLoop tp smart fuel fl.1 result builderName

/-- `processCodeBlockExpressions`: the five ordered rewrite sweeps over a
code block (source: `processCodeBlockExpressions`). -/
def processCodeBlockExpressions (tp : ParseOracle) (smart : Bool) (fuel : Nat)
    (codeContent builderName : Str) : Str :=
  match fuel with
  | 0 => codeContent
  | fuel + 1 =>
    pCBEDollarLoop (fuel + 1)
      (pCBEHashLoop (fuel + 1)
        (pCBEAtLineLoop tp smart fuel 0
          (pCBEAtBraceLoop tp smart fuel
            (pCBEAtAtLoop tp smart fuel codeContent builderName)
            builderName)
          builderName)
        builderName)
      builderName

/-- `processSQLPartForParams` (source: `processSQLPartForParams`; the first
component of the result is always the empty string, as in the source). -/
def processSQLPartForParams (tp : ParseOracle) (smart : Bool) (fuel : Nat)
    (sqlPart builderName : Str) : Str × List Str :=
  match fuel with
  | 0 => ([], [])
  | fuel + 1 => ([], pSPFPGo tp smart fuel sqlPart builderName 0 [])

/-- the scanning loop of `processSQLPartForParams`.  A sigil whose
`findMatchingBrace` fails falls through every remaining check of the same
iteration (they all test `sqlPart[i]`) down to the default case, which
buffers the current character and advances. -/
def pSPFPGo (tp : ParseOracle) (smart : Bool) (fuel : Nat)
    (sqlPart builderName : Str) (i : Nat) (textBuf : Str) : List Str :=
  match fuel with
  | 0 => []
  | fuel + 1 =>
    if i < sqlPart.length then
      -- 1. `#{ ... }` parameter placeholder
      if i + 1 < sqlPart.length ∧ gc sqlPart i = '#' ∧ gc sqlPart (i + 1) = '{' then
        match findMatchingBrace sqlPart (i + 2) with
        | some (content, e) =>
          flushText builderName textBuf ++
            addParamCallRaw builderName (trimS content) ::
            pSPFPGo tp smart fuel sqlPart builderName (e + 1) []
        | none => pSPFPGo tp smart fuel sqlPart builderName (i + 1) (textBuf ++ [gc sqlPart i])
      -- 2. `${ ... }` text expression
      else if i + 1 < sqlPart.length ∧ gc sqlPart i = '$' ∧ gc sqlPart (i + 1) = '{' then
        match findMatchingBrace sqlPart (i + 2) with
        | some (content, e) =>
          flushText builderName textBuf ++
            addTextCallRaw builderName (trimS content) ::
            pSPFPGo tp smart fuel sqlPart builderName (e + 1) []
        | none => pSPFPGo tp smart fuel sqlPart builderName (i + 1) (textBuf ++ [gc sqlPart i])
      -- 3. nested pure Go code block `{ ... }`
      else if gc sqlPart i = '{' ∧ (i = 0 ∨ (gc sqlPart (i - 1) ≠ '#' ∧
          gc sqlPart (i - 1) ≠ '$' ∧ gc sqlPart (i - 1) ≠ '@')) then
        match findMatchingBrace sqlPart (i + 1) with
        | some (content, e) =>
          let processed := processCodeBlockExpressions tp smart fuel (trimS content) builderName
          flushText builderName textBuf ++
            (if processed ≠ [] then [processed] else []) ++
            pSPFPGo tp smart fuel sqlPart builderName (e + 1) []
        | none => pSPFPGo tp smart fuel sqlPart builderName (i + 1) (textBuf ++ [gc sqlPart i])
      -- 4. `@@{ ... }` query block
      else if i + 2 < sqlPart.length ∧ gc sqlPart i = '@' ∧ gc sqlPart (i + 1) = '@' ∧
          gc sqlPart (i + 2) = '{' then
        match findMatchingBrace sqlPart (i + 3) with
        | some (blockContent, e) =>
          let varName := "__double_at_query_".toList ++ natToStr i
          let queryCode :=
            generateGoCodeForSQL tp smart fuel (parseSQLBlock tp smart blockContent varName)
          flushText builderName textBuf ++
            queryCode :: pSPFPGo tp smart fuel sqlPart builderName (e + 1) []
        | none => pSPFPGo tp smart fuel sqlPart builderName (i + 1) (textBuf ++ [gc sqlPart i])
      -- 5. `@{ ... }` text block
      else if i + 1 < sqlPart.length ∧ gc sqlPart i = '@' ∧ gc sqlPart (i + 1) = '{' then
        match findMatchingBrace sqlPart (i + 2) with
        | some (blockContent, e) =>
          let pr := processSQLPartForParams tp smart fuel blockContent builderName
          flushText builderName textBuf ++
            (if pr.1 ≠ [] then [addTextCall builderName pr.1] else []) ++ pr.2 ++
            pSPFPGo tp smart fuel sqlPart builderName (e + 1) []
        | none => pSPFPGo tp smart fuel sqlPart builderName (i + 1) (textBuf ++ [gc sqlPart i])
      -- 6. single-line `@xxx` shorthand
      else if gc sqlPart i = '@' ∧ ¬(i + 1 < sqlPart.length ∧ (gc sqlPart (i + 1) = '{' ∨
          (gc sqlPart (i + 1) = '@' ∧ i + 2 < sqlPart.length ∧ gc sqlPart (i + 2) = '{'))) then
        let lineEnd := scanToLineEnd sqlPart (i + 1)
        let smartResult := trySmartScopeProcessing smart i (sub sqlPart (i + 1) lineEnd)
          (sqlPart.drop (i + 1)) sqlPart
        -- (the source guards the smart check behind `p.smartScopeMode`, which
        -- `trySmartScopeProcessing` re-checks itself)
        if smartResult.shouldHandle then
          flushText builderName textBuf ++
            addTextCall builderName (trimS smartResult.blockContent) ::
            addTextCall builderName ['\n'] ::
            pSPFPGo tp smart fuel sqlPart builderName smartResult.lineEndPos []
        else
          let lineContent := trimS (sub sqlPart (i + 1) lineEnd)
          flushText builderName textBuf ++
            (if lineContent ≠ [] then
              (processSQLPartForParams tp smart fuel lineContent builderName).2
             else []) ++
            addTextCall builderName ['\n'] ::
            pSPFPGo tp smart fuel sqlPart builderName lineEnd []
      else
        pSPFPGo tp smart fuel sqlPart builderName (i + 1) (textBuf ++ [gc sqlPart i])
    else flushText builderName textBuf

/-- `processSmartScopeContent` (source: `processSmartScopeContent`). -/
def processSmartScopeContent (tp : ParseOracle) (smart : Bool) (fuel : Nat)
    (content builderName : Str) : List Str :=
  match fuel with
  | 0 => []
  | fuel + 1 => pSSCGo tp smart fuel content builderName 0

/-- the scanning loop of `processSmartScopeContent`.  A sigil whose
`findMatchingBrace` fails makes no progress in the source (the text scan
stops at the sigil character immediately); the fuel models that
non-termination. -/
def pSSCGo (tp : ParseOracle) (smart : Bool) (fuel : Nat)
    (content builderName : Str) (i : Nat) : List Str :=
  match fuel with
  | 0 => []
  | fuel + 1 =>
    let i := skipWS content i
    if i ≥ content.length then []
    else if i + 1 < content.length ∧ gc content i = '#' ∧ gc content (i + 1) = '{' then
      match findMatchingBrace content (i + 2) with
      | some (exprContent, e) =>
        addParamCallRaw builderName (trimS exprContent) ::
          pSSCGo tp smart fuel content builderName (e + 1)
      | none => pSSCGo tp smart fuel content builderName i
    else if i + 1 < content.length ∧ gc content i = '$' ∧ gc content (i + 1) = '{' then
      match findMatchingBrace content (i + 2) with
      | some (exprContent, e) =>
        addTextCallRaw builderName (trimS exprContent) ::
          pSSCGo tp smart fuel content builderName (e + 1)
      | none => pSSCGo tp smart fuel content builderName i
    else if i + 2 < content.length ∧ i + 1 < content.length ∧ gc content i = '@' ∧
        gc content (i + 1) = '@' ∧ gc content (i + 2) = '{' then
      match findMatchingBrace content (i + 3) with
      | some (blockContent, e) =>
        let varName := "__double_at_query_".toList ++ natToStr i
        generateGoCodeForSQL tp smart fuel (parseSQLBlock tp smart blockContent varName) ::
          pSSCGo tp smart fuel content builderName (e + 1)
      | none => pSSCGo tp smart fuel content builderName i
    else if i + 1 < content.length ∧ gc content i = '@' ∧ gc content (i + 1) = '{' then
      match findMatchingBrace content (i + 2) with
      | some (blockContent, e) =>
        let pr := processSQLPartForParams tp smart fuel blockContent builderName
        (if pr.1 ≠ [] then [addTextCall builderName pr.1] else []) ++ pr.2 ++
          pSSCGo tp smart fuel content builderName (e + 1)
      | none => pSSCGo tp smart fuel content builderName i
    else if gc content i = '{' ∧ (i = 0 ∨ (gc content (i - 1) ≠ '#' ∧
        gc content (i - 1) ≠ '$' ∧ gc content (i - 1) ≠ '@')) then
      match findMatchingBrace content (i + 1) with
      | some (blockContent, e) =>
        let processed := processCodeBlockExpressions tp smart fuel blockContent builderName
        (if processed ≠ [] then [processed] else []) ++
          pSSCGo tp smart fuel content builderName (e + 1)
      | none => pSSCGo tp smart fuel content builderName i
    else
      let j := scanToSpecial content i
      (if i < j then
        (let sqlText := trimS (sub content i j)
         if sqlText ≠ [] then [addTextCall builderName sqlText] else [])
       else []) ++ pSSCGo tp smart fuel content builderName j

/-- `generateGoCodeForSQL`: builder preamble, one emission per node,
`Build()` postamble, wrapped into an immediately-invoked function returning
a `gox.Query` (source: `generateGoCodeForSQL`; the node loop is
`emitNode` mapped over the nodes in order). -/
def generateGoCodeForSQL (tp : ParseOracle) (smart : Bool) (fuel : Nat)
    (block : SQLBlock) : Str :=
  match fuel with
  | 0 => []
  | fuel + 1 =>
    let builder := block.varName ++ "_builder".toList
    let parts := (builder ++ " := gox.NewQueryBuilder()".toList) ::
      (block.content.map (fun node => emitNode tp smart fuel builder node)).flatten ++
      [block.varName ++ " := ".toList ++ builder ++ ".Build()".toList]
    "func()(__result gox.Query) \x7b\n\t\t".toList ++
      List.intercalate "\n\t\t".toList parts ++
      "\n\t\treturn ".toList ++ block.varName ++ "\n\t\x7d()".toList

/-- the per-node emission of `generateGoCodeForSQL`'s `for` loop: the list of
generated statements for one node. -/
def emitNode (tp : ParseOracle) (smart : Bool) (fuel : Nat)
    (builderName : Str) (node : SQLNode) : List Str :=
  match node with
  | .sqlText text =>
    if text = [] then []
    else (textPieces text).map (addTextCall builderName)
  | .sqlExpression ty content expr =>
    match ty with
    | .exprText =>
      match expr with
      | some e => [addTextCallRaw builderName (exprToString e)]
      | none =>
        match fuel with
        | 0 => []
        | fuel + 1 =>
          [processCodeBlockExpressions tp smart fuel (trimS content) builderName]
    | .exprAtText =>
      match fuel with
      | 0 => []
      | fuel + 1 =>
        if smart then
          processSmartScopeContent tp smart fuel (trimS content) builderName
        else
          let pr := processSQLPartForParams tp smart fuel (trimS content) builderName
          (if pr.1 ≠ [] then [addTextCall builderName pr.1] else []) ++ pr.2
    | .exprParam =>
      match expr with
      | some e => [addParamCallRaw builderName (exprToString e)]
      | none => [paramComplexWrapper (trimS content) builderName]
    | .exprDoubleAtQuery => []
    | .exprCode =>
      match fuel with
      | 0 => []
      | fuel + 1 =>
        [processCodeBlockExpressions tp smart fuel (trimS content) builderName]

end

/-- the node loop of `generateGoCodeForSQL`, concatenating the per-node
statement lists in node order. -/
def emitNodeParts (tp : ParseOracle) (smart : Bool) (fuel : Nat)
    (builderName : Str) (nodes : List SQLNode) : List Str :=
  (nodes.map (fun node => emitNode tp smart fuel builderName node)).flatten

/-! ## Top-level call finder -/

/-- whitespace skip of `findSQLBlocks` (space, tab and newline only). -/
def fsbWSLoop (s : Str) : Nat → Nat → Nat
  | 0, i => i
  | gas + 1, i =>
    if i < s.length ∧ (gc s i = ' ' ∨ gc s i = '\t' ∨ gc s i = '\n') then
      fsbWSLoop s gas (i + 1)
    else i

/-- the whitespace skip of `findSQLBlocks` (see `fsbWSLoop`). -/
def skipWSNl (s : Str) (i : Nat) : Nat := fsbWSLoop s (s.length + 1) i

/-- skip of the extra `*` after `/*` in `findSQLBlocks`'s comment form. -/
def starsLoop (s : Str) : Nat → Nat → Nat
  | 0, i => i
  | gas + 1, i => if i < s.length ∧ gc s i = '*' then starsLoop s gas (i + 1) else i

/-- the `*` skip (see `starsLoop`). -/
def skipStars (s : Str) (i : Nat) : Nat := starsLoop s (s.length + 1) i

/-- scan to the closing `*/` of `findSQLBlocks`'s comment form (the loop
stops at `len-1` or at a `*` followed by `/`). -/
def starSlashLoop (s : Str) : Nat → Nat → Nat
  | 0, i => i
  | gas + 1, i =>
    if i < s.length - 1 ∧ ¬(gc s i = '*' ∧ gc s (i + 1) = '/') then
      starSlashLoop s gas (i + 1)
    else i

/-- the `*/` scan (see `starSlashLoop`). -/
def scanToStarSlash (s : Str) (i : Nat) : Nat := starSlashLoop s (s.length + 1) i

/-- one found call site (source: `SQLBlockInfo`): span start, span end (just
past the closing `)`), and the extracted template body. -/
structure SQLBlockInfo where
  start : Nat
  endPos : Nat
  content : Str
  deriving DecidableEq, Repr

/-- the scanning loop of `findSQLBlocks`.

The two accepted prefixes run the same extraction, with `funcLen` 8 for
`gox.Sql(` and 15 for (the unreachable) `runtime.Query(`; the shared body of
the source is instantiated once per prefix here. -/
def fsbLoop (content : Str) : Nat → Nat → List SQLBlockInfo
  | 0, _ => []
  | gas + 1, i =>
    if i < content.length then
      if gc content i = '"' then
        fsbLoop content gas (skipStringLiteral content i '"')
      else if i + 8 ≤ content.length ∧ sub content i (i + 8) = "gox.Sql(".toList then
        let j := skipWSNl content (i + 8)
        if j ≥ content.length then fsbLoop content gas (i + 1)
        else if gc content j = '`' ∨ gc content j = '\'' then
          let quoteChar := gc content j
          match findMatchingQuote content (j + 1) quoteChar (quoteChar = '`') with
          | none => fsbLoop content gas (j + 1)
          | some sqlEnd =>
            let closeParenPos := skipWSNl content (sqlEnd + 1)
            if closeParenPos ≥ content.length ∨ gc content closeParenPos ≠ ')' then
              fsbLoop content gas (j + 1)
            else
              ⟨i, closeParenPos + 1, sub content (j + 1) sqlEnd⟩ ::
                fsbLoop content gas (closeParenPos + 1)
        else if gc content j = '/' ∧ j + 1 < content.length ∧ gc content (j + 1) = '*' then
          let commentStart := skipStars content (j + 2)
          let commentEnd := scanToStarSlash content commentStart
          if commentEnd ≥ content.length - 1 then fsbLoop content gas (j + 1)
          else
            let closeParenPos := skipWSNl content (commentEnd + 2)
            if closeParenPos ≥ content.length ∨ gc content closeParenPos ≠ ')' then
              fsbLoop content gas (j + 1)
            else
              ⟨i, closeParenPos + 1, sub content commentStart commentEnd⟩ ::
                fsbLoop content gas (closeParenPos + 1)
        else fsbLoop content gas (i + 5)
      else if i + 15 ≤ content.length ∧ sub content i (i + 15) = "runtime.Query(".toList then
        -- dead branch: the 15-byte window never equals the 14-byte pattern
        let j := skipWSNl content (i + 15)
        if j ≥ content.length then fsbLoop content gas (i + 1)
        else if gc content j = '`' ∨ gc content j = '\'' then
          let quoteChar := gc content j
          match findMatchingQuote content (j + 1) quoteChar (quoteChar = '`') with
          | none => fsbLoop content gas (j + 1)
          | some sqlEnd =>
            let closeParenPos := skipWSNl content (sqlEnd + 1)
            if closeParenPos ≥ content.length ∨ gc content closeParenPos ≠ ')' then
              fsbLoop content gas (j + 1)
            else
              ⟨i, closeParenPos + 1, sub content (j + 1) sqlEnd⟩ ::
                fsbLoop content gas (closeParenPos + 1)
        else if gc content j = '/' ∧ j + 1 < content.length ∧ gc content (j + 1) = '*' then
          let commentStart := skipStars content (j + 2)
          let commentEnd := scanToStarSlash content commentStart
          if commentEnd ≥ content.length - 1 then fsbLoop content gas (j + 1)
          else
            let closeParenPos := skipWSNl content (commentEnd + 2)
            if closeParenPos ≥ content.length ∨ gc content closeParenPos ≠ ')' then
              fsbLoop content gas (j + 1)
            else
              ⟨i, closeParenPos + 1, sub content commentStart commentEnd⟩ ::
                fsbLoop content gas (closeParenPos + 1)
        else fsbLoop content gas (i + 5)
      else fsbLoop content gas (i + 1)
    else []

/-- `findSQLBlocks`: scan a host source file for `gox.Sql(...)` /
`runtime.Query(...)` call sites holding a backtick- or single-quoted string
or a `/*...*/` comment, skipping double-quoted string literals (source:
`findSQLBlocks`).

The `runtime.Query(` comparison of the source checks a 15-byte window
against the 14-byte pattern, so it can never succeed; the translation keeps
the comparison verbatim. -/
def findSQLBlocks (content : Str) : List SQLBlockInfo :=
  fsbLoop content (content.length + 1) 0

/-! ## The run-time `gox` package: `Query`, `QueryBuilder` -/

/-- model of a Go `interface{}` value as passed to the builder API. -/
inductive GoValue where
  | vnil
  | vstr (s : Str)
  | vint (n : Int)
  | vbool (b : Bool)
  | vquery (sql : Str) (args : List GoValue)
  | vslice (elems : List GoValue)

/-- `fmt.Sprintf("%v", ·)` of `AddText`'s default case, modelled for the
value shapes above; no theorem below depends on this rendering. -/
def sprintfV : GoValue → Str
  | .vnil => "<nil>".toList
  | .vstr s => s
  | .vint n => (toString n).toList
  | .vbool b => (toString b).toList
  | .vquery sql _ => sql
  | .vslice _ => "[...]".toList

/-- a built query: SQL text plus argument values (source: `Query`). -/
structure Query where
  sql : Str
  args : List GoValue

/-- the query builder state (source: `QueryBuilder`; `parts` is the
`strings.Builder`). -/
structure QueryBuilder where
  parts : Str
  args : List GoValue

/-- `NewQueryBuilder` (source: `NewQueryBuilder`). -/
def NewQueryBuilder : QueryBuilder := ⟨[], []⟩

/-- `QueryBuilder.AddText` (source: `AddText`): a string is appended to the
SQL text; a `Query` is spliced (text and args); `nil` is a no-op; any other
value is stringified and appended. -/
def QueryBuilder.AddText (qb : QueryBuilder) (text : GoValue) : QueryBuilder :=
  match text with
  | .vstr s => { qb with parts := qb.parts ++ s }
  | .vquery sql args => { parts := qb.parts ++ sql, args := qb.args ++ args }
  | .vnil => qb
  | t => { qb with parts := qb.parts ++ sprintfV t }

/-- the `?`/`,` sequence written by `AddParam`'s slice loop (`if i > 0` adds
the comma separator). -/
def sliceParts : Bool → List GoValue → Str
  | _, [] => []
  | isFirst, _ :: rest => (if isFirst then [] else [',']) ++ '?' :: sliceParts false rest

/-- `QueryBuilder.AddParam` (source: `AddParam`).  The source first evaluates
`reflect.TypeOf(arg).Kind()`: for a nil interface value `reflect.TypeOf`
returns a nil `Type` and the `Kind` call panics — modelled as `none`.  A
slice contributes one `?` per element (comma separated) and its elements in
index order; anything else contributes one `?` and the value itself. -/
def QueryBuilder.AddParam (qb : QueryBuilder) (arg : GoValue) : Option QueryBuilder :=
  match arg with
  | .vnil => none
  | .vslice elems =>
    some { parts := qb.parts ++ sliceParts true elems, args := qb.args ++ elems }
  | v => some { parts := qb.parts ++ ['?'], args := qb.args ++ [v] }

/-- `QueryBuilder.Build` (source: `Build`). -/
def QueryBuilder.Build (qb : QueryBuilder) : Query := ⟨qb.parts, qb.args⟩

/-- a non-nil, non-slice argument (the `AddParam` fast path). -/
def GoValue.isScalar : GoValue → Prop
  | .vnil => False
  | .vslice _ => False
  | _ => True

instance : DecidablePred GoValue.isScalar := fun v => by
  cases v <;> simp only [GoValue.isScalar] <;> infer_instance

/-- one builder call of the generated code (execution model of the emitted
statement list: the generated code invokes the builder methods in statement
order). -/
inductive BuilderCall where
  | callAddText (v : GoValue)
  | callAddParam (v : GoValue)

/-- run a builder-call sequence against a builder state; an `AddParam` panic
aborts the run (`none`). -/
def runCalls : List BuilderCall → QueryBuilder → Option QueryBuilder
  | [], qb => some qb
  | .callAddText v :: rest, qb => runCalls rest (qb.AddText v)
  | .callAddParam v :: rest, qb => (qb.AddParam v).bind (runCalls rest)

/-- the builder calls performed by the code that the emitter generates for
one token, under an environment `env` giving each host expression's runtime
value: a Text token yields one `AddText` per emitted line fragment, a Param
token one `AddParam` of the expression's value, a TextExpr one `AddText` of
the expression's value.  (The block-shaped kinds expand to nested builder
programs and are excluded by the hypotheses of the theorems that use this
model.) -/
def callsOfToken (env : Str → GoValue) (t : SQLToken) : List BuilderCall :=
  match t.type with
  | .text => (textPieces t.content).map (fun s => .callAddText (.vstr s))
  | .param => [.callAddParam (env t.content)]
  | .textExpr => [.callAddText (env t.content)]
  | _ => []

/-! ## The compiler driver's path computation (`processGoxFile`) -/

/-- Go `strings.TrimSuffix`. -/
def trimSuffix (s suffix : Str) : Str :=
  if suffix.isSuffixOf s then s.take (s.length - suffix.length) else s

/-- `filepath.IsAbs` (Unix model: an absolute path starts with `/`). -/
def isAbsPath (p : Str) : Bool :=
  match p with
  | [] => false
  | c :: _ => c = '/'

/-- `filepath.Join cwd p` (modelled as plain concatenation with a
separator; path cleaning does not matter for the claims below). -/
def joinPath (cwd p : Str) : Str := cwd ++ '/' :: p

/-- the compiler configuration fields used by `processGoxFile`
(source: `Compiler`). -/
structure CompilerCfg where
  destPath : Str

/-- the derived `X_gen.go` path of `processGoxFile` (source: line
`goPath := strings.TrimSuffix(goxPath, ".gox.go") + "_gen.go"`); it is used
only for the incremental `shouldSkipFile` check. -/
def incrementalCheckPath (goxPath : Str) : Str :=
  trimSuffix goxPath ".gox.go".toList ++ "_gen.go".toList

/-- the path `processGoxFile` actually writes to (source: the later
`goPath = c.DestPath` assignment followed by the absolute-path fixup); it
does not depend on the input file at all. -/
def writtenPath (c : CompilerCfg) (cwd : Str) (_goxPath : Str) : Str :=
  if isAbsPath c.destPath then c.destPath else joinPath cwd c.destPath

/-! ## Observation helpers for the theorems -/

/-- a fixed parse oracle for closed evaluations (a host parser that accepts
nothing; the scenarios below never consult it). -/
def noParseOracle : ParseOracle := fun _ => none

/-- the Text fragments emitted by the tokenizer/emitter for a token
sequence: each Text token contributes its per-line `AddText` payloads, in
order. -/
def textFragments (tokens : List SQLToken) : List Str :=
  tokens.flatMap fun t =>
    match t.type with
    | .text => textPieces t.content
    | _ => []

/-- concatenation of all emitted Text fragments. -/
def textConcat (tokens : List SQLToken) : Str := (textFragments tokens).flatten

/-! ## Positional reasoning helpers -/

theorem gc_append_left (pre rest : Str) (k : Nat) (h : k < pre.length) :
    gc (pre ++ rest) k = gc pre k :=
  List.getD_append _ _ _ _ h

theorem gc_append_right (pre rest : Str) (k : Nat) (h : pre.length ≤ k) :
    gc (pre ++ rest) k = gc rest (k - pre.length) :=
  List.getD_append_right _ _ _ _ h

theorem gc_at (pre : Str) (c : Char) (rest : Str) :
    gc (pre ++ c :: rest) pre.length = c := by
  rw [gc_append_right _ _ _ (le_refl _), Nat.sub_self]
  rfl

theorem gc_mem (s : Str) (k : Nat) (h : k < s.length) : gc s k ∈ s := by
  rw [gc, List.getD_eq_getElem _ _ h]
  exact List.getElem_mem h

theorem drop_at (pre rest : Str) : (pre ++ rest).drop pre.length = rest :=
  List.drop_left _ _

theorem sub_at (pre rest : Str) (n : Nat) :
    sub (pre ++ rest) pre.length (pre.length + n) = rest.take n := by
  rw [sub, drop_at, Nat.add_sub_cancel_left]

theorem sub_mid (pre mid post : Str) :
    sub (pre ++ (mid ++ post)) pre.length (pre.length + mid.length) = mid := by
  rw [sub_at, List.take_left]

/-- characters at positions `[i, i+n)` of a region all avoid `q`: advance the
raw-string quote scan across the region (exact-fuel form). -/
theorem fmqLoop_advance_raw (content : Str) (q : Char) :
    ∀ (n gas i : Nat),
      (∀ k, i ≤ k → k < i + n → gc content k ≠ q) →
      i + n ≤ content.length →
      fmqLoop content q true (gas + n) i = fmqLoop content q true gas (i + n) := by
  intro n
  induction n with
  | zero => intro gas i _ _; rfl
  | succ n ih =>
    intro gas i hplain hlen
    have hstep : fmqLoop content q true (gas + n + 1) i = fmqLoop content q true (gas + n) (i + 1) := by
      rw [fmqLoop]
      rw [if_pos (by omega), if_neg (hplain i (le_refl _) (by omega)),
        if_neg (by simp)]
    calc fmqLoop content q true (gas + (n + 1)) i
        = fmqLoop content q true (gas + n + 1) i := by ring_nf
      _ = fmqLoop content q true (gas + n) (i + 1) := hstep
      _ = fmqLoop content q true gas (i + 1 + n) := by
          exact ih gas (i + 1) (fun k hk1 hk2 => hplain k (by omega) (by omega)) (by omega)
      _ = fmqLoop content q true gas (i + (n + 1)) := by ring_nf

theorem fmqLoop_stop (content : Str) (q : Char) (raw : Bool) (gas i : Nat)
    (hlt : i < content.length) (hq : gc content i = q) :
    fmqLoop content q raw (gas + 1) i = some i := by
  rw [fmqLoop, if_pos hlt, if_pos hq]

theorem fsbWSLoop_stop (s : Str) (gas i : Nat)
    (h : ¬(i < s.length ∧ (gc s i = ' ' ∨ gc s i = '\t' ∨ gc s i = '\n'))) :
    fsbWSLoop s (gas + 1) i = i := by
  rw [fsbWSLoop, if_neg h]

/-- the `findSQLBlocks` whitespace skip does not move off a non-whitespace
character. -/
theorem skipWSNl_stop (s : Str) (i : Nat)
    (h : ¬(gc s i = ' ' ∨ gc s i = '\t' ∨ gc s i = '\n')) :
    skipWSNl s i = i := by
  rw [skipWSNl]
  exact fsbWSLoop_stop s s.length i (by tauto)

theorem fsbLoop_end (content : Str) (gas i : Nat) (h : content.length ≤ i) :
    fsbLoop content (gas + 1) i = [] := by
  rw [fsbLoop, if_neg (by omega)]

theorem fmqLoop_advance_sub (content : Str) (q : Char) (n gas i : Nat)
    (hgas : n ≤ gas)
    (hplain : ∀ k, i ≤ k → k < i + n → gc content k ≠ q)
    (hlen : i + n ≤ content.length) :
    fmqLoop content q true gas i = fmqLoop content q true (gas - n) (i + n) := by
  have h : gas = (gas - n) + n := by omega
  rw [h, fmqLoop_advance_raw content q n (gas - n) i hplain hlen]
  congr 1
  omega

theorem fmqLoop_stop' (content : Str) (q : Char) (raw : Bool) (gas i : Nat)
    (hgas : 0 < gas) (hlt : i < content.length) (hq : gc content i = q) :
    fmqLoop content q raw gas i = some i := by
  cases gas with
  | zero => omega
  | succ gas => exact fmqLoop_stop content q raw gas i hlt hq

theorem fsbLoop_end' (content : Str) (gas i : Nat) (hgas : 0 < gas)
    (h : content.length ≤ i) : fsbLoop content gas i = [] := by
  cases gas with
  | zero => omega
  | succ gas => exact fsbLoop_end content gas i h

/-- a character that triggers no branch of the tokenizer's scan. -/
abbrev plainTok (c : Char) : Prop := c ≠ '{' ∧ c ≠ '@' ∧ c ≠ '#' ∧ c ≠ '$'

/-- advance the tokenizer across a run of non-sigil characters (exact-fuel
form). -/
theorem tokLoop_advance (smart : Bool) (content : Str) :
    ∀ (n gas i ts : Nat),
      (∀ k, i ≤ k → k < i + n → plainTok (gc content k)) →
      i + n ≤ content.length →
      tokLoop smart content (gas + n) i ts = tokLoop smart content gas (i + n) ts := by
  intro n
  induction n with
  | zero => intro gas i ts _ _; rfl
  | succ n ih =>
    intro gas i ts hplain hlen
    obtain ⟨hc1, hc2, hc3, hc4⟩ := hplain i (le_refl _) (by omega)
    have hstep : tokLoop smart content (gas + n + 1) i ts =
        tokLoop smart content (gas + n) (i + 1) ts := by
      rw [tokLoop]
      rw [if_pos (by omega)]
      rw [if_neg (by rintro ⟨-, h, -⟩; exact hc3 h)]
      rw [if_neg (by rintro ⟨-, h, -⟩; exact hc4 h)]
      rw [if_neg (by rintro ⟨-, h⟩; exact hc2 h)]
      rw [if_neg (by rintro ⟨h, -⟩; exact hc1 h)]
    calc tokLoop smart content (gas + (n + 1)) i ts
        = tokLoop smart content (gas + n + 1) i ts := by ring_nf
      _ = tokLoop smart content (gas + n) (i + 1) ts := hstep
      _ = tokLoop smart content gas (i + 1 + n) ts :=
          ih gas (i + 1) ts (fun k h1 h2 => hplain k (by omega) (by omega)) (by omega)
      _ = tokLoop smart content gas (i + (n + 1)) ts := by ring_nf

theorem tokLoop_advance_sub (smart : Bool) (content : Str) (n gas i ts : Nat)
    (hgas : n ≤ gas)
    (hplain : ∀ k, i ≤ k → k < i + n → plainTok (gc content k))
    (hlen : i + n ≤ content.length) :
    tokLoop smart content gas i ts = tokLoop smart content (gas - n) (i + n) ts := by
  have h : gas = (gas - n) + n := by omega
  rw [h, tokLoop_advance smart content n (gas - n) i ts hplain hlen]
  congr 1
  omega

/-- the tokenizer's final flush once the cursor reaches the end. -/
theorem tokLoop_end (smart : Bool) (content : Str) (gas i ts : Nat) (hgas : 0 < gas)
    (h : content.length ≤ i) :
    tokLoop smart content gas i ts =
      if ts < content.length ∧ trimS (content.drop ts) ≠ [] then
        [⟨.text, content.drop ts, ts, content.length⟩]
      else [] := by
  cases gas with
  | zero => omega
  | succ gas => rw [tokLoop, if_neg (by omega)]

/-- the `#{expr}` step of the tokenizer. -/
theorem tokLoop_param_step (smart : Bool) (content : Str) (gas i ts : Nat)
    (c : Str) (e : Nat) (hgas : 0 < gas)
    (h1 : i + 1 < content.length) (h2 : gc content i = '#') (h3 : gc content (i + 1) = '{')
    (hm : findMatchingBrace content (i + 2) = some (c, e)) :
    tokLoop smart content gas i ts =
      flushTok content ts i ++
        ⟨.param, c, i, e + 1⟩ :: tokLoop smart content (gas - 1) (e + 1) (e + 1) := by
  cases gas with
  | zero => omega
  | succ gas =>
    rw [tokLoop, if_pos (by omega), if_pos ⟨h1, h2, h3⟩, hm]
    rfl

/-- the failed-`#{` step of the tokenizer: the flush fires, the cursor moves
one step, `textStart` stays. -/
theorem tokLoop_param_fail (smart : Bool) (content : Str) (gas i ts : Nat) (hgas : 0 < gas)
    (h1 : i + 1 < content.length) (h2 : gc content i = '#') (h3 : gc content (i + 1) = '{')
    (hm : findMatchingBrace content (i + 2) = none) :
    tokLoop smart content gas i ts =
      flushTok content ts i ++ tokLoop smart content (gas - 1) (i + 1) ts := by
  cases gas with
  | zero => omega
  | succ gas =>
    rw [tokLoop, if_pos (by omega), if_pos ⟨h1, h2, h3⟩, hm]
    rfl

/-- a `{` directly preceded by `#`, `$` or `@` is not a code block; the
cursor just advances. -/
theorem tokLoop_brace_after_sigil (smart : Bool) (content : Str) (gas i ts : Nat)
    (hgas : 0 < gas) (hlt : i < content.length)
    (h0 : gc content i = '{')
    (hprev : ¬(i = 0 ∨ (gc content (i - 1) ≠ '#' ∧ gc content (i - 1) ≠ '$' ∧
      gc content (i - 1) ≠ '@'))) :
    tokLoop smart content gas i ts = tokLoop smart content (gas - 1) (i + 1) ts := by
  cases gas with
  | zero => omega
  | succ gas =>
    rw [tokLoop, if_pos hlt]
    rw [if_neg (by rintro ⟨-, h, -⟩; rw [h0] at h; exact absurd h (by decide))]
    rw [if_neg (by rintro ⟨-, h, -⟩; rw [h0] at h; exact absurd h (by decide))]
    rw [if_neg (by rintro ⟨-, h⟩; rw [h0] at h; exact absurd h (by decide))]
    rw [if_neg (by rintro ⟨-, h⟩; exact hprev h)]
    rfl

/-- the `@xxx` line branch of the tokenizer, for a line whose scan records no
brace (`fl.2 = none`): promoted to an AtBlock when smart-scope fires,
otherwise an AtLine token plus a newline Text token. -/
theorem tokLoop_atline (smart : Bool) (content : Str) (gas i ts : Nat)
    (fl : Nat × Option Nat) (sr : SmartScopeResult)
    (hgas : 0 < gas)
    (h1 : i + 1 < content.length) (h2 : gc content i = '@')
    (h3 : ¬(i + 2 < content.length ∧ gc content (i + 1) = '@' ∧ gc content (i + 2) = '{'))
    (h4 : gc content (i + 1) ≠ '{')
    (hfl : findLineEndBr content (i + 1) i = fl)
    (hfl2 : fl.2 = none)
    (hsr : trySmartScopeProcessing smart i (sub content (i + 1) fl.1)
      (content.drop (i + 1)) content = sr) :
    tokLoop smart content gas i ts =
      if sr.shouldHandle then
        flushTok content ts i ++
          ⟨.atBlock, trimS sr.blockContent, i, sr.lineEndPos⟩ ::
          ⟨.text, ['\n'], sr.lineEndPos, sr.lineEndPos⟩ ::
          tokLoop smart content (gas - 1) sr.lineEndPos sr.lineEndPos
      else
        flushTok content ts i ++
          (if trimS (sub content (i + 1) fl.1) ≠ [] then
            [⟨.atLine, trimS (sub content (i + 1) fl.1), i, fl.1⟩] else []) ++
          ⟨.text, ['\n'], fl.1, fl.1⟩ :: tokLoop smart content (gas - 1) fl.1 fl.1 := by
  cases gas with
  | zero => omega
  | succ g =>
    rw [tokLoop, if_pos (by omega),
      if_neg (by rintro ⟨-, h, -⟩; rw [h2] at h; exact absurd h (by decide)),
      if_neg (by rintro ⟨-, h, -⟩; rw [h2] at h; exact absurd h (by decide)),
      if_pos ⟨h1, h2⟩, if_neg h3, if_neg h4]
    simp only [hfl, hfl2, hsr]
    rfl

/-- a character that triggers no branch of a brace walk. -/
abbrev plainBrace (c : Char) : Prop :=
  c ≠ '{' ∧ c ≠ '}' ∧ c ≠ '"' ∧ c ≠ '\'' ∧ c ≠ '`'

theorem fmbLoop_advance (content : Str) (start : Nat) :
    ∀ (n gas i cnt : Nat), 0 < cnt →
      (∀ k, i ≤ k → k < i + n → plainBrace (gc content k)) →
      i + n ≤ content.length →
      fmbLoop content start (gas + n) i cnt = fmbLoop content start gas (i + n) cnt := by
  intro n
  induction n with
  | zero => intro gas i cnt _ _ _; rfl
  | succ n ih =>
    intro gas i cnt hcnt hplain hlen
    obtain ⟨hc1, hc2, hc3, hc4, hc5⟩ := hplain i (le_refl _) (by omega)
    have hstep : fmbLoop content start (gas + n + 1) i cnt =
        fmbLoop content start (gas + n) (i + 1) cnt := by
      rw [fmbLoop, if_pos ⟨by omega, hcnt⟩, if_neg hc1, if_neg hc2,
        if_neg (by rintro (h | h | h) <;> [exact hc3 h; exact hc4 h; exact hc5 h])]
    calc fmbLoop content start (gas + (n + 1)) i cnt
        = fmbLoop content start (gas + n + 1) i cnt := by ring_nf
      _ = fmbLoop content start (gas + n) (i + 1) cnt := hstep
      _ = fmbLoop content start gas (i + 1 + n) cnt :=
          ih gas (i + 1) cnt hcnt (fun k h1 h2 => hplain k (by omega) (by omega)) (by omega)
      _ = fmbLoop content start gas (i + (n + 1)) cnt := by ring_nf

/-- a closing `}` at brace depth 1 finishes the walk. -/
theorem fmbLoop_close (content : Str) (start gas i : Nat) (hgas : 1 < gas)
    (hlt : i < content.length) (h : gc content i = '}') :
    fmbLoop content start gas i 1 = some (sub content start i, i) := by
  obtain ⟨g, rfl⟩ : ∃ g, gas = (g + 1) + 1 := ⟨gas - 2, by omega⟩
  rw [fmbLoop, if_pos ⟨hlt, by omega⟩,
    if_neg (by rw [h]; decide), if_pos h]
  rw [fmbLoop, if_neg (by omega), if_pos (by decide)]
  simp

/-- `findMatchingBrace` over a plain expression closed by the next `}`. -/
theorem findMatchingBrace_plain (content : Str) (start n : Nat)
    (hplain : ∀ k, start ≤ k → k < start + n → plainBrace (gc content k))
    (hclose : gc content (start + n) = '}')
    (hlen : start + n < content.length) :
    findMatchingBrace content start = some (sub content start (start + n), start + n) := by
  rw [findMatchingBrace]
  have h : content.length + 1 = (content.length + 1 - n) + n := by omega
  rw [h, fmbLoop_advance content start n (content.length + 1 - n) start 1 (by omega)
    hplain (by omega)]
  exact fmbLoop_close content start _ (start + n) (by omega) hlen hclose

/-- `findMatchingBrace` fails when the rest of the string is plain. -/
theorem findMatchingBrace_plain_none (content : Str) (start : Nat)
    (hplain : ∀ k, start ≤ k → k < content.length → plainBrace (gc content k)) :
    findMatchingBrace content start = none := by
  rw [findMatchingBrace]
  by_cases hs : start ≤ content.length
  · have h : content.length + 1 = (content.length + 1 - (content.length - start)) +
        (content.length - start) := by omega
    rw [h, fmbLoop_advance content start (content.length - start) _ start 1 (by omega)
      (fun k h1 h2 => hplain k h1 (by omega)) (by omega)]
    have h2 : start + (content.length - start) = content.length := by omega
    rw [h2]
    have h3 : content.length + 1 - (content.length - start) = start + 1 := by omega
    rw [h3, fmbLoop, if_neg (by omega), if_neg (by omega)]
  · have h : ∃ g, content.length + 1 = g + 1 := ⟨content.length, rfl⟩
    obtain ⟨g, hg⟩ := h
    rw [hg, fmbLoop, if_neg (by omega), if_neg (by omega)]

theorem gc_cons_succ (c : Char) (s : Str) (k : Nat) : gc (c :: s) (k + 1) = gc s k := by
  simp [gc]

theorem gc_concat (A B : Str) (j : Nat) : gc (A ++ B) (A.length + j) = gc B j := by
  rw [gc_append_right _ _ _ (by omega), Nat.add_sub_cancel_left]

theorem drop_concat (A B : Str) (k : Nat) : (A ++ B).drop (A.length + k) = B.drop k := by
  rw [← List.drop_drop, drop_at]

theorem plainTok_of_isSp (c : Char) (h : isSp c = true) : plainTok c := by
  simp [isSp] at h
  rcases h with ((rfl | rfl) | rfl) | rfl <;>
    exact ⟨by decide, by decide, by decide, by decide⟩

theorem trimS_sp_nil (w : Str) (h : ∀ c ∈ w, isSp c = true) : trimS w = [] := by
  have h1 : w.dropWhile isSp = [] := List.dropWhile_eq_nil_iff.mpr h
  rw [trimS, h1]
  rfl

theorem sp_of_trimS_nil (s : Str) (h : trimS s = []) : ∀ c ∈ s, isSp c = true := by
  intro c hc
  have h1 : ((s.dropWhile isSp).reverse.dropWhile isSp).reverse = [] := h
  have h2 : (s.dropWhile isSp).reverse.dropWhile isSp = [] := by
    have := congrArg List.reverse h1
    simpa using this
  have h3 : ∀ x ∈ (s.dropWhile isSp).reverse, isSp x = true :=
    List.dropWhile_eq_nil_iff.mp h2
  have h4 : ∀ x ∈ s.dropWhile isSp, isSp x = true := fun x hx =>
    h3 x (List.mem_reverse.mpr hx)
  have h5 : s.takeWhile isSp ++ s.dropWhile isSp = s := List.takeWhile_append_dropWhile _ _
  rw [← h5] at hc
  rcases List.mem_append.mp hc with hc | hc
  · exact List.mem_takeWhile_imp hc
  · exact h4 c hc

theorem ne_nil_of_trimS (s : Str) (h : trimS s ≠ []) : s ≠ [] := by
  intro hs
  exact h (by rw [hs]; rfl)

theorem splitNl_no_nl : ∀ s : Str, (∀ c ∈ s, c ≠ '\n') → splitNl s = [s] := by
  intro s
  induction s with
  | nil => intro _; rfl
  | cons c rest ih =>
    intro h
    rw [splitNl, if_neg (h c (List.mem_cons_self c rest)),
      ih (fun d hd => h d (List.mem_cons_of_mem c hd))]

theorem textPieces_single (s : Str) (h : ∀ c ∈ s, c ≠ '\n') (hne : s ≠ [])
    (hc : isCommentLine s = false) : textPieces s = [s] := by
  rw [textPieces, splitNl_no_nl s h]
  simp [textPiecesAux, hc, hne]

/-- position arithmetic through a named split of the scanned string. -/
theorem gc_split (Cc A B : Str) (p j : Nat) (hS : Cc = A ++ B) (hA : A.length = p) :
    gc Cc (p + j) = gc B j := by
  subst hS
  subst hA
  exact gc_concat A B j

/-- slice extraction through a named split of the scanned string. -/
theorem sub_split (Cc A mid post : Str) (p : Nat) (hS : Cc = A ++ (mid ++ post))
    (hA : A.length = p) : sub Cc p (p + mid.length) = mid := by
  subst hS
  subst hA
  exact sub_mid A mid post

/-- advance the string-literal skipper across escape-free non-quote
characters (exact-fuel form). -/
theorem sslLoop_advance (content : Str) (q : Char) :
    ∀ (n gas i : Nat),
      (∀ k, i ≤ k → k < i + n → gc content k ≠ q ∧ gc content k ≠ '\\') →
      i + n ≤ content.length →
      sslLoop content q (gas + n) i = sslLoop content q gas (i + n) := by
  intro n
  induction n with
  | zero => intro gas i _ _; rfl
  | succ n ih =>
    intro gas i hplain hlen
    obtain ⟨hc1, hc2⟩ := hplain i (le_refl _) (by omega)
    have hstep : sslLoop content q (gas + n + 1) i = sslLoop content q (gas + n) (i + 1) := by
      rw [sslLoop, if_pos ⟨by omega, hc1⟩, if_neg (by rintro ⟨h, -⟩; exact hc2 h)]
    calc sslLoop content q (gas + (n + 1)) i
        = sslLoop content q (gas + n + 1) i := by ring_nf
      _ = sslLoop content q (gas + n) (i + 1) := hstep
      _ = sslLoop content q gas (i + 1 + n) :=
          ih gas (i + 1) (fun k h1 h2 => hplain k (by omega) (by omega)) (by omega)
      _ = sslLoop content q gas (i + (n + 1)) := by ring_nf

theorem sslLoop_advance_sub (content : Str) (q : Char) (n gas i : Nat)
    (hgas : n ≤ gas)
    (hplain : ∀ k, i ≤ k → k < i + n → gc content k ≠ q ∧ gc content k ≠ '\\')
    (hlen : i + n ≤ content.length) :
    sslLoop content q gas i = sslLoop content q (gas - n) (i + n) := by
  have h : gas = (gas - n) + n := by omega
  rw [h, sslLoop_advance content q n (gas - n) i hplain hlen]
  congr 1
  omega

/-- the skipper stops just past the closing quote. -/
theorem sslLoop_close (content : Str) (q : Char) (gas i : Nat) (hgas : 0 < gas)
    (hlt : i < content.length) (hq : gc content i = q) :
    sslLoop content q gas i = i + 1 := by
  cases gas with
  | zero => omega
  | succ g =>
    rw [sslLoop, if_neg (by rintro ⟨-, h⟩; exact h hq), if_pos hlt]

/-- `skipStringLiteral` over a literal with no escapes and no inner quote:
it lands just past the closing quote. -/
theorem skipStringLiteral_over (content : Str) (i L : Nat) (q : Char)
    (hq : gc content i = q) (hlt : i < content.length)
    (hmid : ∀ k, i + 1 ≤ k → k < i + 1 + L → gc content k ≠ q ∧ gc content k ≠ '\\')
    (hclose : gc content (i + 1 + L) = q) (hlen : i + 1 + L < content.length) :
    skipStringLiteral content i q = i + L + 2 := by
  rw [skipStringLiteral, if_neg (by push_neg; exact ⟨by omega, hq⟩),
    sslLoop_advance_sub content q L (content.length + 1) (i + 1) (by omega) hmid (by omega),
    sslLoop_close content q _ (i + 1 + L) (by omega) (by omega) hclose]
  omega

/-- the quote branch of the brace walk delegates to the string skipper. -/
theorem fmbLoop_quote_step (content : Str) (start gas i cnt : Nat)
    (hgas : 0 < gas) (hlt : i < content.length) (hcnt : 0 < cnt)
    (hq : gc content i = '"' ∨ gc content i = '\'' ∨ gc content i = '`') :
    fmbLoop content start gas i cnt =
      fmbLoop content start (gas - 1) (skipStringLiteral content i (gc content i)) cnt := by
  cases gas with
  | zero => omega
  | succ g =>
    rw [fmbLoop, if_pos ⟨hlt, hcnt⟩,
      if_neg (by rcases hq with h | h | h <;> rw [h] <;> decide),
      if_neg (by rcases hq with h | h | h <;> rw [h] <;> decide),
      if_pos hq]
    rfl

/-- a character that triggers no branch of a paren walk. -/
abbrev plainParen (c : Char) : Prop :=
  c ≠ '(' ∧ c ≠ ')' ∧ c ≠ '"' ∧ c ≠ '\'' ∧ c ≠ '`'

/-- an unremarkable character of an `@`-line: triggers nothing in the
tokenizer, the line scans, the paren walks or the string skippers. -/
abbrev plainLine (c : Char) : Prop :=
  c ≠ '\n' ∧ c ≠ '\r' ∧ c ≠ '(' ∧ c ≠ ')' ∧ c ≠ '"' ∧ c ≠ '\'' ∧ c ≠ '`' ∧
  c ≠ '{' ∧ c ≠ '}' ∧ c ≠ '@' ∧ c ≠ '#' ∧ c ≠ '$'

theorem plainLine_paren (c : Char) (h : plainLine c) : plainParen c := by
  obtain ⟨h1, h2, h3, h4, h5, h6, h7, h8, h9, h10, h11, h12⟩ := h
  exact ⟨h3, h4, h5, h6, h7⟩

theorem plainLine_tok (c : Char) (h : plainLine c) : plainTok c := by
  obtain ⟨h1, h2, h3, h4, h5, h6, h7, h8, h9, h10, h11, h12⟩ := h
  exact ⟨h8, h10, h11, h12⟩

/-- advance the line-end/brace scan of the `@xxx` shorthand across a plain
region (exact-fuel form). -/
theorem flebLoop_advance (content : Str) (atPos : Nat) :
    ∀ (n gas le : Nat) (bp : Option Nat),
      (∀ k, le ≤ k → k < le + n →
        gc content k ≠ '\n' ∧ gc content k ≠ '\r' ∧ gc content k ≠ '{') →
      le + n ≤ content.length →
      flebLoop content atPos (gas + n) le bp = flebLoop content atPos gas (le + n) bp := by
  intro n
  induction n with
  | zero => intro gas le bp _ _; rfl
  | succ n ih =>
    intro gas le bp hplain hlen
    obtain ⟨hc1, hc2, hc3⟩ := hplain le (le_refl _) (by omega)
    have hstep : flebLoop content atPos (gas + n + 1) le bp =
        flebLoop content atPos (gas + n) (le + 1) bp := by
      rw [flebLoop, if_pos ⟨by omega, hc1, hc2⟩,
        if_neg (by rintro ⟨h, -⟩; exact hc3 h)]
    calc flebLoop content atPos (gas + (n + 1)) le bp
        = flebLoop content atPos (gas + n + 1) le bp := by ring_nf
      _ = flebLoop content atPos (gas + n) (le + 1) bp := hstep
      _ = flebLoop content atPos gas (le + 1 + n) bp :=
          ih gas (le + 1) bp (fun k h1 h2 => hplain k (by omega) (by omega)) (by omega)
      _ = flebLoop content atPos gas (le + (n + 1)) bp := by ring_nf

theorem flebLoop_advance_sub (content : Str) (atPos n gas le : Nat) (bp : Option Nat)
    (hgas : n ≤ gas)
    (hplain : ∀ k, le ≤ k → k < le + n →
      gc content k ≠ '\n' ∧ gc content k ≠ '\r' ∧ gc content k ≠ '{')
    (hlen : le + n ≤ content.length) :
    flebLoop content atPos gas le bp = flebLoop content atPos (gas - n) (le + n) bp := by
  have h : gas = (gas - n) + n := by omega
  rw [h, flebLoop_advance content atPos n (gas - n) le bp hplain hlen]
  congr 1
  omega

/-- the line scan stops at a newline or the end of the content. -/
theorem flebLoop_stop (content : Str) (atPos gas le : Nat) (bp : Option Nat)
    (hgas : 0 < gas)
    (hstop : content.length ≤ le ∨ gc content le = '\n' ∨ gc content le = '\r') :
    flebLoop content atPos gas le bp = (le, bp) := by
  cases gas with
  | zero => omega
  | succ g =>
    rw [flebLoop, if_neg]
    rintro ⟨ha, hb, hc⟩
    rcases hstop with h | h | h
    · omega
    · exact hb h
    · exact hc h

theorem stleLoop_stop (content : Str) (gas start : Nat) (hgas : 0 < gas)
    (hstop : content.length ≤ start ∨ gc content start = '\n' ∨ gc content start = '\r') :
    stleLoop content gas start = start := by
  cases gas with
  | zero => omega
  | succ g =>
    rw [stleLoop, if_neg]
    rintro ⟨ha, hb, hc⟩
    rcases hstop with h | h | h
    · omega
    · exact hb h
    · exact hc h

/-- advance the function-call skipper of `findControlStructureParen` across a
plain region (exact-fuel form). -/
theorem fcspSkipCall_advance (content : Str) :
    ∀ (n gas i cnt : Nat), 0 < cnt →
      (∀ k, i ≤ k → k < i + n → plainParen (gc content k)) →
      i + n ≤ content.length →
      fcspSkipCall content (gas + n) i cnt = fcspSkipCall content gas (i + n) cnt := by
  intro n
  induction n with
  | zero => intro gas i cnt _ _ _; rfl
  | succ n ih =>
    intro gas i cnt hcnt hplain hlen
    obtain ⟨hc1, hc2, hc3, hc4, hc5⟩ := hplain i (le_refl _) (by omega)
    have hstep : fcspSkipCall content (gas + n + 1) i cnt =
        fcspSkipCall content (gas + n) (i + 1) cnt := by
      rw [fcspSkipCall, if_pos ⟨by omega, hcnt⟩, if_neg hc1, if_neg hc2,
        if_neg (by rintro (h | h | h) <;> [exact hc3 h; exact hc4 h; exact hc5 h])]
    calc fcspSkipCall content (gas + (n + 1)) i cnt
        = fcspSkipCall content (gas + n + 1) i cnt := by ring_nf
      _ = fcspSkipCall content (gas + n) (i + 1) cnt := hstep
      _ = fcspSkipCall content gas (i + 1 + n) cnt :=
          ih gas (i + 1) cnt hcnt (fun k h1 h2 => hplain k (by omega) (by omega)) (by omega)
      _ = fcspSkipCall content gas (i + (n + 1)) cnt := by ring_nf

theorem fcspSkipCall_advance_sub (content : Str) (n gas i cnt : Nat)
    (hgas : n ≤ gas) (hcnt : 0 < cnt)
    (hplain : ∀ k, i ≤ k → k < i + n → plainParen (gc content k))
    (hlen : i + n ≤ content.length) :
    fcspSkipCall content gas i cnt = fcspSkipCall content (gas - n) (i + n) cnt := by
  have h : gas = (gas - n) + n := by omega
  rw [h, fcspSkipCall_advance content n (gas - n) i cnt hcnt hplain hlen]
  congr 1
  omega

/-- the function-call skipper returns just past the `)` that balances the
call. -/
theorem fcspSkipCall_close (content : Str) (gas i : Nat) (hgas : 1 < gas)
    (hlt : i < content.length) (h : gc content i = ')') :
    fcspSkipCall content gas i 1 = i + 1 := by
  obtain ⟨g, rfl⟩ : ∃ g, gas = (g + 1) + 1 := ⟨gas - 2, by omega⟩
  rw [fcspSkipCall, if_pos ⟨hlt, by omega⟩, if_neg (by rw [h]; decide), if_pos h,
    fcspSkipCall, if_neg (by omega)]

/-- advance the control-paren scan across a plain region (exact-fuel form);
`lastParen` is untouched. -/
theorem fcspLoop_advance (content : Str) :
    ∀ (n gas i : Nat) (lp : Option Nat),
      (∀ k, i ≤ k → k < i + n →
        gc content k ≠ '(' ∧ gc content k ≠ '"' ∧ gc content k ≠ '\'' ∧
          gc content k ≠ '`') →
      i + n ≤ content.length →
      fcspLoop content (gas + n) i lp = fcspLoop content gas (i + n) lp := by
  intro n
  induction n with
  | zero => intro gas i lp _ _; rfl
  | succ n ih =>
    intro gas i lp hplain hlen
    obtain ⟨hc1, hc2, hc3, hc4⟩ := hplain i (le_refl _) (by omega)
    have hstep : fcspLoop content (gas + n + 1) i lp =
        fcspLoop content (gas + n) (i + 1) lp := by
      rw [fcspLoop, if_pos (by omega), if_neg hc1,
        if_neg (by rintro (h | h | h) <;> [exact hc2 h; exact hc3 h; exact hc4 h])]
    calc fcspLoop content (gas + (n + 1)) i lp
        = fcspLoop content (gas + n + 1) i lp := by ring_nf
      _ = fcspLoop content (gas + n) (i + 1) lp := hstep
      _ = fcspLoop content gas (i + 1 + n) lp :=
          ih gas (i + 1) lp (fun k h1 h2 => hplain k (by omega) (by omega)) (by omega)
      _ = fcspLoop content gas (i + (n + 1)) lp := by ring_nf

theorem fcspLoop_advance_sub (content : Str) (n gas i : Nat) (lp : Option Nat)
    (hgas : n ≤ gas)
    (hplain : ∀ k, i ≤ k → k < i + n →
      gc content k ≠ '(' ∧ gc content k ≠ '"' ∧ gc content k ≠ '\'' ∧ gc content k ≠ '`')
    (hlen : i + n ≤ content.length) :
    fcspLoop content gas i lp = fcspLoop content (gas - n) (i + n) lp := by
  have h : gas = (gas - n) + n := by omega
  rw [h, fcspLoop_advance content n (gas - n) i lp hplain hlen]
  congr 1
  omega

/-- a `(` that does not follow an identifier character records itself as the
candidate control paren. -/
theorem fcspLoop_paren_noident (content : Str) (gas i : Nat) (lp : Option Nat)
    (hgas : 0 < gas) (hlt : i < content.length) (h : gc content i = '(')
    (hni : isFollowingIdentifier content i = false) :
    fcspLoop content gas i lp = fcspLoop content (gas - 1) (i + 1) (some i) := by
  cases gas with
  | zero => omega
  | succ g =>
    rw [fcspLoop, if_pos hlt, if_pos h, if_neg (by rw [hni]; decide)]
    rfl

/-- a `(` that follows an identifier character is skipped as a function
call. -/
theorem fcspLoop_paren_ident (content : Str) (gas i : Nat) (lp : Option Nat)
    (hgas : 0 < gas) (hlt : i < content.length) (h : gc content i = '(')
    (hid : isFollowingIdentifier content i = true) :
    fcspLoop content gas i lp =
      fcspLoop content (gas - 1) (fcspSkipCall content (content.length + 1) (i + 1) 1) lp := by
  cases gas with
  | zero => omega
  | succ g =>
    rw [fcspLoop, if_pos hlt, if_pos h, if_pos hid]
    rfl

theorem fcspLoop_end (content : Str) (gas i : Nat) (lp : Option Nat)
    (hgas : 0 < gas) (h : content.length ≤ i) :
    fcspLoop content gas i lp = lp := by
  cases gas with
  | zero => omega
  | succ g => rw [fcspLoop, if_neg (by omega)]

/-- advance the paren walk across a plain region (exact-fuel form). -/
theorem fmpLoop_advance (content : Str) (start : Nat) :
    ∀ (n gas i cnt : Nat), 0 < cnt →
      (∀ k, i ≤ k → k < i + n → plainParen (gc content k)) →
      i + n ≤ content.length →
      fmpLoop content start (gas + n) i cnt = fmpLoop content start gas (i + n) cnt := by
  intro n
  induction n with
  | zero => intro gas i cnt _ _ _; rfl
  | succ n ih =>
    intro gas i cnt hcnt hplain hlen
    obtain ⟨hc1, hc2, hc3, hc4, hc5⟩ := hplain i (le_refl _) (by omega)
    have hstep : fmpLoop content start (gas + n + 1) i cnt =
        fmpLoop content start (gas + n) (i + 1) cnt := by
      rw [fmpLoop, if_pos ⟨by omega, hcnt⟩, if_neg hc1, if_neg hc2,
        if_neg (by rintro (h | h | h) <;> [exact hc3 h; exact hc4 h; exact hc5 h])]
    calc fmpLoop content start (gas + (n + 1)) i cnt
        = fmpLoop content start (gas + n + 1) i cnt := by ring_nf
      _ = fmpLoop content start (gas + n) (i + 1) cnt := hstep
      _ = fmpLoop content start gas (i + 1 + n) cnt :=
          ih gas (i + 1) cnt hcnt (fun k h1 h2 => hplain k (by omega) (by omega)) (by omega)
      _ = fmpLoop content start gas (i + (n + 1)) cnt := by ring_nf

/-- a closing `)` at paren depth 1 finishes the walk. -/
theorem fmpLoop_close (content : Str) (start gas i : Nat) (hgas : 1 < gas)
    (hlt : i < content.length) (h : gc content i = ')') :
    fmpLoop content start gas i 1 = some (sub content start i, i) := by
  obtain ⟨g, rfl⟩ : ∃ g, gas = (g + 1) + 1 := ⟨gas - 2, by omega⟩
  rw [fmpLoop, if_pos ⟨hlt, by omega⟩, if_neg (by rw [h]; decide), if_pos h,
    fmpLoop, if_neg (by omega), if_pos (by decide)]
  simp

/-- `findMatchingParen` over a plain region closed by the next `)`. -/
theorem findMatchingParen_plain (content : Str) (start n : Nat)
    (hplain : ∀ k, start ≤ k → k < start + n → plainParen (gc content k))
    (hclose : gc content (start + n) = ')')
    (hlen : start + n < content.length) :
    findMatchingParen content start = some (sub content start (start + n), start + n) := by
  rw [findMatchingParen]
  have h : content.length + 1 = (content.length + 1 - n) + n := by omega
  rw [h, fmpLoop_advance content start n (content.length + 1 - n) start 1 (by omega)
    hplain (by omega)]
  exact fmpLoop_close content start _ (start + n) (by omega) hlen hclose

/-- a list with non-whitespace first and last characters is its own trim. -/
theorem trimS_edge (c d : Char) (mid : Str) (hc : isSp c = false) (hd : isSp d = false) :
    trimS (c :: (mid ++ [d])) = c :: (mid ++ [d]) := by
  rw [trimS, List.dropWhile_cons, if_neg (by simp [hc])]
  have h2 : (c :: (mid ++ [d])).reverse = d :: (mid.reverse ++ [c]) := by simp
  rw [h2, List.dropWhile_cons, if_neg (by simp [hd])]
  simp

/-- smart-scope promotion family: `@if (c1⏎c2)` — the matching `)` lies on
the next line, so the whole two-line chunk becomes one AtBlock token followed
by a newline Text token. -/
theorem atPromotionFamily (c1 c2 : Str)
    (hc1 : ∀ c ∈ c1, plainLine c) (hc2 : ∀ c ∈ c2, plainLine c) :
    tokenizeSQLContent true
        ('@' :: 'i' :: 'f' :: ' ' :: '(' :: (c1 ++ '\n' :: (c2 ++ [')']))) =
      [⟨.atBlock, 'i' :: 'f' :: ' ' :: '(' :: (c1 ++ '\n' :: (c2 ++ [')'])), 0,
        c1.length + c2.length + 7⟩,
       ⟨.text, ['\n'], c1.length + c2.length + 7, c1.length + c2.length + 7⟩] := by
  set C : Str := '@' :: 'i' :: 'f' :: ' ' :: '(' :: (c1 ++ '\n' :: (c2 ++ [')'])) with hC
  have hlen : C.length = c1.length + c2.length + 7 := by
    rw [hC]
    simp only [List.length_cons, List.length_append, List.length_nil]
    try omega
  have hS1 : C = ['@', 'i', 'f', ' ', '('] ++ (c1 ++ '\n' :: (c2 ++ [')'])) := by
    rw [hC]
    rfl
  have g5 : ∀ j, gc C (5 + j) = gc (c1 ++ '\n' :: (c2 ++ [')'])) j := fun j =>
    gc_split C _ _ 5 j hS1 rfl
  have hfl : findLineEndBr C 1 0 = (5 + c1.length, none) := by
    rw [findLineEndBr,
      flebLoop_advance_sub C 0 (4 + c1.length) (C.length + 1) 1 none (by omega)
        (fun k hk1 hk2 => by
          by_cases hk5 : k < 5
          · have hk : k = 1 ∨ k = 2 ∨ k = 3 ∨ k = 4 := by omega
            rcases hk with rfl | rfl | rfl | rfl
            · rw [show gc C 1 = 'i' from by rw [hC]; rfl]
              exact ⟨by decide, by decide, by decide⟩
            · rw [show gc C 2 = 'f' from by rw [hC]; rfl]
              exact ⟨by decide, by decide, by decide⟩
            · rw [show gc C 3 = ' ' from by rw [hC]; rfl]
              exact ⟨by decide, by decide, by decide⟩
            · rw [show gc C 4 = '(' from by rw [hC]; rfl]
              exact ⟨by decide, by decide, by decide⟩
          · obtain ⟨j, rfl⟩ : ∃ j, k = 5 + j := ⟨k - 5, by omega⟩
            rw [g5 j, gc_append_left _ _ _ (by omega)]
            obtain ⟨p1, p2, p3, p4, p5, p6, p7, p8, p9, p10, p11, p12⟩ :=
              hc1 _ (gc_mem c1 j (by omega))
            exact ⟨p1, p2, p8⟩)
        (by omega),
      flebLoop_stop C 0 _ (1 + (4 + c1.length)) none (by omega)
        (Or.inr (Or.inl (by
          rw [show (1 + (4 + c1.length) : Nat) = 5 + c1.length from by omega, g5 c1.length]
          exact gc_at c1 '\n' _)))]
    simp only [Prod.mk.injEq]
    exact ⟨by omega, trivial⟩
  have hsub : sub C 1 (5 + c1.length) = 'i' :: 'f' :: ' ' :: '(' :: c1 := by
    have hSA : C = ['@'] ++ (('i' :: 'f' :: ' ' :: '(' :: c1) ++ '\n' :: (c2 ++ [')'])) := by
      rw [hC]; simp
    have h := sub_split C ['@'] ('i' :: 'f' :: ' ' :: '(' :: c1)
      ('\n' :: (c2 ++ [')'])) 1 hSA rfl
    have hml : ('i' :: 'f' :: ' ' :: '(' :: c1 : Str).length = c1.length + 4 := by
      simp only [List.length_cons]
      try omega
    rw [hml] at h
    rw [show (5 + c1.length : Nat) = 1 + (c1.length + 4) from by omega]
    exact h
  have hdrop1 : C.drop 1 = 'i' :: 'f' :: ' ' :: '(' :: (c1 ++ '\n' :: (c2 ++ [')'])) := by
    rw [hC]
    rfl
  have hFlen : ('i' :: 'f' :: ' ' :: '(' :: (c1 ++ '\n' :: (c2 ++ [')'])) : Str).length =
      c1.length + c2.length + 6 := by
    simp only [List.length_cons, List.length_append, List.length_nil]
    try omega
  have hfcsp : findControlStructureParen ('i' :: 'f' :: ' ' :: '(' :: c1) = some 3 := by
    have hLlen : ('i' :: 'f' :: ' ' :: '(' :: c1 : Str).length = c1.length + 4 := by
      simp only [List.length_cons]
      try omega
    rw [findControlStructureParen,
      fcspLoop_advance_sub ('i' :: 'f' :: ' ' :: '(' :: c1) 3
        (('i' :: 'f' :: ' ' :: '(' :: c1 : Str).length + 1) 0 none (by omega)
        (fun k hk1 hk2 => by
          have hk : k = 0 ∨ k = 1 ∨ k = 2 := by omega
          rcases hk with rfl | rfl | rfl
          · rw [show gc ('i' :: 'f' :: ' ' :: '(' :: c1) 0 = 'i' from rfl]
            exact ⟨by decide, by decide, by decide, by decide⟩
          · rw [show gc ('i' :: 'f' :: ' ' :: '(' :: c1) 1 = 'f' from rfl]
            exact ⟨by decide, by decide, by decide, by decide⟩
          · rw [show gc ('i' :: 'f' :: ' ' :: '(' :: c1) 2 = ' ' from rfl]
            exact ⟨by decide, by decide, by decide, by decide⟩)
        (by omega),
      Nat.zero_add,
      fcspLoop_paren_noident ('i' :: 'f' :: ' ' :: '(' :: c1)
        (('i' :: 'f' :: ' ' :: '(' :: c1 : Str).length + 1 - 3) 3 none
        (by omega) (by omega) rfl rfl,
      fcspLoop_advance_sub ('i' :: 'f' :: ' ' :: '(' :: c1) c1.length
        (('i' :: 'f' :: ' ' :: '(' :: c1 : Str).length + 1 - 3 - 1) (3 + 1) (some 3)
        (by omega)
        (fun k hk1 hk2 => by
          obtain ⟨j, rfl⟩ : ∃ j, k = 4 + j := ⟨k - 4, by omega⟩
          rw [show (4 + j : Nat) = j + 1 + 1 + 1 + 1 from by omega, gc_cons_succ,
            gc_cons_succ, gc_cons_succ, gc_cons_succ]
          obtain ⟨p1, p2, p3, p4, p5, p6, p7, p8, p9, p10, p11, p12⟩ :=
            hc1 _ (gc_mem c1 j (by omega))
          exact ⟨p3, p5, p6, p7⟩)
        (by omega),
      fcspLoop_end ('i' :: 'f' :: ' ' :: '(' :: c1)
        (('i' :: 'f' :: ' ' :: '(' :: c1 : Str).length + 1 - 3 - 1 - c1.length)
        (3 + 1 + c1.length) (some 3) (by omega) (by omega)]
  have hSF : ('i' :: 'f' :: ' ' :: '(' :: (c1 ++ '\n' :: (c2 ++ [')'])) : Str) =
      (('i' :: 'f' :: ' ' :: '(' :: c1) ++ ['\n']) ++ (c2 ++ [')']) := by
    simp
  have hAF : (('i' :: 'f' :: ' ' :: '(' :: c1) ++ (['\n'] : Str)).length = c1.length + 5 := by
    simp only [List.length_cons, List.length_append, List.length_nil]
    try omega
  have gF : ∀ j, gc ('i' :: 'f' :: ' ' :: '(' :: (c1 ++ '\n' :: (c2 ++ [')'])))
      (c1.length + 5 + j) = gc (c2 ++ [')']) j := fun j =>
    gc_split _ _ _ (c1.length + 5) j hSF hAF
  have gF4 : ∀ j, gc ('i' :: 'f' :: ' ' :: '(' :: (c1 ++ '\n' :: (c2 ++ [')'])))
      (4 + j) = gc (c1 ++ '\n' :: (c2 ++ [')'])) j := fun j => by
    rw [show (4 + j : Nat) = j + 1 + 1 + 1 + 1 from by omega, gc_cons_succ,
      gc_cons_succ, gc_cons_succ, gc_cons_succ]
  have hfmp : findMatchingParen ('i' :: 'f' :: ' ' :: '(' :: (c1 ++ '\n' :: (c2 ++ [')'])))
      (3 + 1) =
      some (sub ('i' :: 'f' :: ' ' :: '(' :: (c1 ++ '\n' :: (c2 ++ [')'])))
        (3 + 1) (3 + 1 + (c1.length + 1 + c2.length)),
        3 + 1 + (c1.length + 1 + c2.length)) := by
    exact findMatchingParen_plain _ (3 + 1) (c1.length + 1 + c2.length)
      (fun k hk1 hk2 => by
        by_cases hkc1 : k < 4 + c1.length
        · obtain ⟨j, rfl⟩ : ∃ j, k = 4 + j := ⟨k - 4, by omega⟩
          rw [gF4 j, gc_append_left _ _ _ (by omega)]
          exact plainLine_paren _ (hc1 _ (gc_mem c1 j (by omega)))
        · by_cases hknl : k = 4 + c1.length
          · subst hknl
            rw [gF4 c1.length, gc_at c1 '\n' _]
            exact ⟨by decide, by decide, by decide, by decide, by decide⟩

          · obtain ⟨j, rfl⟩ : ∃ j, k = c1.length + 5 + j := ⟨k - c1.length - 5, by omega⟩
            rw [gF j, gc_append_left _ _ _ (by omega)]
            exact plainLine_paren _ (hc2 _ (gc_mem c2 j (by omega))))
      (by
        rw [show (3 + 1 + (c1.length + 1 + c2.length) : Nat) = c1.length + 5 + c2.length
            from by omega, gF c2.length]
        exact gc_at c2 ')' [])
      (by rw [hFlen]; omega)
  have hsubF : sub C 1 (c1.length + c2.length + 7) =
      'i' :: 'f' :: ' ' :: '(' :: (c1 ++ '\n' :: (c2 ++ [')'])) := by
    rw [sub, hdrop1, show (c1.length + c2.length + 7 - 1 : Nat) =
      c1.length + c2.length + 6 from by omega]
    exact List.take_of_length_le (by rw [hFlen])
  have hsr : trySmartScopeProcessing true 0 (sub C 1 (5 + c1.length)) (C.drop 1) C =
      ⟨true, c1.length + c2.length + 6, c1.length + c2.length + 7,
        'i' :: 'f' :: ' ' :: '(' :: (c1 ++ '\n' :: (c2 ++ [')']))⟩ := by
    rw [hsub, hdrop1, trySmartScopeProcessing,
      if_neg (by
        rintro (h | h)
        · exact h rfl
        · exact h rfl)]
    simp only [hfcsp, hfmp]
    rw [if_neg (by
      intro h
      simp only [List.length_cons] at h
      omega)]
    have hstle : scanToLineEnd C (0 + 1 + (3 + 1 + (c1.length + 1 + c2.length)) + 1) =
        c1.length + c2.length + 7 := by
      rw [scanToLineEnd, stleLoop_stop C _ _ (by omega) (Or.inl (by omega))]
      omega
    simp only [hstle]
    rw [show (0 + 1 : Nat) = 1 from by omega, hsubF]
    simp only [SmartScopeResult.mk.injEq]
    exact ⟨trivial, by omega, trivial, trivial⟩
  rw [tokenizeSQLContent,
    tokLoop_atline true C (C.length + 1) 0 0 (5 + c1.length, none)
      ⟨true, c1.length + c2.length + 6, c1.length + c2.length + 7,
        'i' :: 'f' :: ' ' :: '(' :: (c1 ++ '\n' :: (c2 ++ [')']))⟩
      (by omega) (by omega) (by rw [hC]; rfl)
      (by
        rintro ⟨-, h, -⟩
        rw [show gc C (0 + 1) = 'i' from by rw [hC]; rfl] at h
        exact absurd h (by decide))
      (by
        rw [show gc C (0 + 1) = 'i' from by rw [hC]; rfl]
        decide)
      hfl rfl hsr,
    if_pos (show (⟨true, c1.length + c2.length + 6, c1.length + c2.length + 7,
      'i' :: 'f' :: ' ' :: '(' :: (c1 ++ '\n' :: (c2 ++ [')']))⟩ :
        SmartScopeResult).shouldHandle = true from rfl)]
  have hf0 : flushTok C 0 0 = [] := by
    rw [flushTok, if_neg (by rintro ⟨h, -⟩; omega)]
  have htr : trimS ('i' :: 'f' :: ' ' :: '(' :: (c1 ++ '\n' :: (c2 ++ [')']))) =
      'i' :: 'f' :: ' ' :: '(' :: (c1 ++ '\n' :: (c2 ++ [')'])) := by
    rw [show ('i' :: 'f' :: ' ' :: '(' :: (c1 ++ '\n' :: (c2 ++ [')'])) : Str) =
      'i' :: (('f' :: ' ' :: '(' :: (c1 ++ '\n' :: c2)) ++ [')']) from by simp]
    exact trimS_edge 'i' ')' _ (by decide) (by decide)
  show flushTok C 0 0 ++
      ⟨.atBlock, trimS ('i' :: 'f' :: ' ' :: '(' :: (c1 ++ '\n' :: (c2 ++ [')']))), 0,
        c1.length + c2.length + 7⟩ ::
      ⟨.text, ['\n'], c1.length + c2.length + 7, c1.length + c2.length + 7⟩ ::
      tokLoop true C (C.length + 1 - 1) (c1.length + c2.length + 7)
        (c1.length + c2.length + 7) = _
  rw [hf0, htr,
    tokLoop_end true C (C.length + 1 - 1) (c1.length + c2.length + 7)
      (c1.length + c2.length + 7) (by omega) (by omega),
    if_neg (by rintro ⟨h, -⟩; omega)]
  rfl

/-- same-line family: `@if (c1)` with the matching `)` on the same line — no
promotion; the ordinary AtLine token (plus the inserted newline Text token)
is emitted. -/
theorem atSameLineFamily (c1 : Str) (hc1 : ∀ c ∈ c1, plainLine c) :
    tokenizeSQLContent true
        ('@' :: 'i' :: 'f' :: ' ' :: '(' :: (c1 ++ [')', '\n'])) =
      [⟨.atLine, 'i' :: 'f' :: ' ' :: '(' :: (c1 ++ [')']), 0, 6 + c1.length⟩,
       ⟨.text, ['\n'], 6 + c1.length, 6 + c1.length⟩] := by
  set C : Str := '@' :: 'i' :: 'f' :: ' ' :: '(' :: (c1 ++ [')', '\n']) with hC
  have hlen : C.length = c1.length + 7 := by
    rw [hC]
    simp only [List.length_cons, List.length_append, List.length_nil]
    try omega
  have hS1 : C = ['@', 'i', 'f', ' ', '('] ++ (c1 ++ [')', '\n']) := by
    rw [hC]
    rfl
  have g5 : ∀ j, gc C (5 + j) = gc (c1 ++ [')', '\n']) j := fun j =>
    gc_split C _ _ 5 j hS1 rfl
  have hrp : gc C (5 + c1.length) = ')' := by
    rw [g5 c1.length]
    exact gc_at c1 ')' ['\n']
  have hnl : gc C (6 + c1.length) = '\n' := by
    rw [show (6 + c1.length : Nat) = 5 + (c1.length + 1) from by omega, g5,
      gc_append_right _ _ _ (by omega),
      show (c1.length + 1 - c1.length : Nat) = 1 from by omega]
    rfl
  have hfl : findLineEndBr C 1 0 = (6 + c1.length, none) := by
    rw [findLineEndBr,
      flebLoop_advance_sub C 0 (5 + c1.length) (C.length + 1) 1 none (by omega)
        (fun k hk1 hk2 => by
          by_cases hk5 : k < 5
          · have hk : k = 1 ∨ k = 2 ∨ k = 3 ∨ k = 4 := by omega
            rcases hk with rfl | rfl | rfl | rfl
            · rw [show gc C 1 = 'i' from by rw [hC]; rfl]
              exact ⟨by decide, by decide, by decide⟩
            · rw [show gc C 2 = 'f' from by rw [hC]; rfl]
              exact ⟨by decide, by decide, by decide⟩
            · rw [show gc C 3 = ' ' from by rw [hC]; rfl]
              exact ⟨by decide, by decide, by decide⟩
            · rw [show gc C 4 = '(' from by rw [hC]; rfl]
              exact ⟨by decide, by decide, by decide⟩
          · by_cases hkr : k = 5 + c1.length
            · subst hkr
              rw [hrp]
              exact ⟨by decide, by decide, by decide⟩
            · obtain ⟨j, rfl⟩ : ∃ j, k = 5 + j := ⟨k - 5, by omega⟩
              rw [g5 j, gc_append_left _ _ _ (by omega)]
              obtain ⟨p1, p2, p3, p4, p5, p6, p7, p8, p9, p10, p11, p12⟩ :=
                hc1 _ (gc_mem c1 j (by omega))
              exact ⟨p1, p2, p8⟩)
        (by omega),
      flebLoop_stop C 0 _ (1 + (5 + c1.length)) none (by omega)
        (Or.inr (Or.inl (by
          rw [show (1 + (5 + c1.length) : Nat) = 6 + c1.length from by omega]
          exact hnl)))]
    simp only [Prod.mk.injEq]
    exact ⟨by omega, trivial⟩
  have hsub : sub C 1 (6 + c1.length) = 'i' :: 'f' :: ' ' :: '(' :: (c1 ++ [')']) := by
    have hSA : C = ['@'] ++ (('i' :: 'f' :: ' ' :: '(' :: (c1 ++ [')'])) ++ ['\n']) := by
      rw [hC]; simp
    have h := sub_split C ['@'] ('i' :: 'f' :: ' ' :: '(' :: (c1 ++ [')'])) ['\n'] 1 hSA rfl
    have hml : ('i' :: 'f' :: ' ' :: '(' :: (c1 ++ [')']) : Str).length = c1.length + 5 := by
      simp only [List.length_cons, List.length_append, List.length_nil]
      try omega
    rw [hml] at h
    rw [show (6 + c1.length : Nat) = 1 + (c1.length + 5) from by omega]
    exact h
  have hdrop1 : C.drop 1 = 'i' :: 'f' :: ' ' :: '(' :: (c1 ++ [')', '\n']) := by
    rw [hC]
    rfl
  have hfcsp : findControlStructureParen ('i' :: 'f' :: ' ' :: '(' :: (c1 ++ [')'])) =
      some 3 := by
    have hLlen : ('i' :: 'f' :: ' ' :: '(' :: (c1 ++ [')']) : Str).length =
        c1.length + 5 := by
      simp only [List.length_cons, List.length_append, List.length_nil]
      try omega
    rw [findControlStructureParen,
      fcspLoop_advance_sub ('i' :: 'f' :: ' ' :: '(' :: (c1 ++ [')'])) 3
        (('i' :: 'f' :: ' ' :: '(' :: (c1 ++ [')']) : Str).length + 1) 0 none (by omega)
        (fun k hk1 hk2 => by
          have hk : k = 0 ∨ k = 1 ∨ k = 2 := by omega
          rcases hk with rfl | rfl | rfl
          · rw [show gc ('i' :: 'f' :: ' ' :: '(' :: (c1 ++ [')'])) 0 = 'i' from rfl]
            exact ⟨by decide, by decide, by decide, by decide⟩
          · rw [show gc ('i' :: 'f' :: ' ' :: '(' :: (c1 ++ [')'])) 1 = 'f' from rfl]
            exact ⟨by decide, by decide, by decide, by decide⟩
          · rw [show gc ('i' :: 'f' :: ' ' :: '(' :: (c1 ++ [')'])) 2 = ' ' from rfl]
            exact ⟨by decide, by decide, by decide, by decide⟩)
        (by omega),
      Nat.zero_add,
      fcspLoop_paren_noident ('i' :: 'f' :: ' ' :: '(' :: (c1 ++ [')']))
        (('i' :: 'f' :: ' ' :: '(' :: (c1 ++ [')']) : Str).length + 1 - 3) 3 none
        (by omega) (by omega) rfl rfl,
      fcspLoop_advance_sub ('i' :: 'f' :: ' ' :: '(' :: (c1 ++ [')'])) (c1.length + 1)
        (('i' :: 'f' :: ' ' :: '(' :: (c1 ++ [')']) : Str).length + 1 - 3 - 1) (3 + 1)
        (some 3) (by omega)
        (fun k hk1 hk2 => by
          obtain ⟨j, rfl⟩ : ∃ j, k = 4 + j := ⟨k - 4, by omega⟩
          rw [show (4 + j : Nat) = j + 1 + 1 + 1 + 1 from by omega, gc_cons_succ,
            gc_cons_succ, gc_cons_succ, gc_cons_succ]
          by_cases hj : j < c1.length
          · rw [gc_append_left _ _ _ hj]
            obtain ⟨p1, p2, p3, p4, p5, p6, p7, p8, p9, p10, p11, p12⟩ :=
              hc1 _ (gc_mem c1 j (by omega))
            exact ⟨p3, p5, p6, p7⟩
          · have hj2 : j = c1.length := by omega
            subst hj2
            rw [gc_at c1 ')' []]
            exact ⟨by decide, by decide, by decide, by decide⟩)
        (by omega),
      fcspLoop_end ('i' :: 'f' :: ' ' :: '(' :: (c1 ++ [')']))
        (('i' :: 'f' :: ' ' :: '(' :: (c1 ++ [')']) : Str).length + 1 - 3 - 1 -
          (c1.length + 1)) (3 + 1 + (c1.length + 1)) (some 3) (by omega) (by omega)]
  have gF4 : ∀ j, gc ('i' :: 'f' :: ' ' :: '(' :: (c1 ++ [')', '\n'])) (4 + j) =
      gc (c1 ++ [')', '\n']) j := fun j => by
    rw [show (4 + j : Nat) = j + 1 + 1 + 1 + 1 from by omega, gc_cons_succ,
      gc_cons_succ, gc_cons_succ, gc_cons_succ]
  have hFlen : ('i' :: 'f' :: ' ' :: '(' :: (c1 ++ [')', '\n']) : Str).length =
      c1.length + 6 := by
    simp only [List.length_cons, List.length_append, List.length_nil]
    try omega
  have hfmp : findMatchingParen ('i' :: 'f' :: ' ' :: '(' :: (c1 ++ [')', '\n'])) (3 + 1) =
      some (sub ('i' :: 'f' :: ' ' :: '(' :: (c1 ++ [')', '\n'])) (3 + 1)
        (3 + 1 + c1.length), 3 + 1 + c1.length) := by
    exact findMatchingParen_plain _ (3 + 1) c1.length
      (fun k hk1 hk2 => by
        obtain ⟨j, rfl⟩ : ∃ j, k = 4 + j := ⟨k - 4, by omega⟩
        rw [gF4 j, gc_append_left _ _ _ (by omega)]
        exact plainLine_paren _ (hc1 _ (gc_mem c1 j (by omega))))
      (by
        rw [show (3 + 1 + c1.length : Nat) = 4 + c1.length from by omega, gF4 c1.length]
        exact gc_at c1 ')' ['\n'])
      (by rw [hFlen]; omega)
  have hsr : trySmartScopeProcessing true 0 (sub C 1 (6 + c1.length)) (C.drop 1) C =
      ⟨false, 0, 0, []⟩ := by
    rw [hsub, hdrop1, trySmartScopeProcessing,
      if_neg (by
        rintro (h | h)
        · exact h rfl
        · exact h rfl)]
    simp only [hfcsp, hfmp]
    rw [if_pos (by
      simp only [List.length_cons, List.length_append, List.length_nil]
      omega)]
  have htr : trimS ('i' :: 'f' :: ' ' :: '(' :: (c1 ++ [')'])) =
      'i' :: 'f' :: ' ' :: '(' :: (c1 ++ [')']) := by
    rw [show ('i' :: 'f' :: ' ' :: '(' :: (c1 ++ [')']) : Str) =
      'i' :: (('f' :: ' ' :: '(' :: c1) ++ [')']) from by simp]
    exact trimS_edge 'i' ')' _ (by decide) (by decide)
  have hf0 : flushTok C 0 0 = [] := by
    rw [flushTok, if_neg (by rintro ⟨h, -⟩; omega)]
  have hdropNl : C.drop (6 + c1.length) = ['\n'] := by
    have hSd : C = ('@' :: 'i' :: 'f' :: ' ' :: '(' :: (c1 ++ [')'])) ++ ['\n'] := by
      rw [hC]; simp
    rw [hSd, show (6 + c1.length : Nat) =
      ('@' :: 'i' :: 'f' :: ' ' :: '(' :: (c1 ++ [')']) : Str).length from by
        simp only [List.length_cons, List.length_append, List.length_nil]
        omega,
      drop_at]
  rw [tokenizeSQLContent,
    tokLoop_atline true C (C.length + 1) 0 0 (6 + c1.length, none) ⟨false, 0, 0, []⟩
      (by omega) (by omega) (by rw [hC]; rfl)
      (by
        rintro ⟨-, h, -⟩
        rw [show gc C (0 + 1) = 'i' from by rw [hC]; rfl] at h
        exact absurd h (by decide))
      (by
        rw [show gc C (0 + 1) = 'i' from by rw [hC]; rfl]
        decide)
      hfl rfl hsr,
    if_neg (show ¬((⟨false, 0, 0, []⟩ : SmartScopeResult).shouldHandle = true) from by
      decide)]
  show flushTok C 0 0 ++
      (if trimS (sub C (0 + 1) (6 + c1.length)) ≠ [] then
        [⟨.atLine, trimS (sub C (0 + 1) (6 + c1.length)), 0, 6 + c1.length⟩] else []) ++
      ⟨.text, ['\n'], 6 + c1.length, 6 + c1.length⟩ ::
      tokLoop true C (C.length + 1 - 1) (6 + c1.length) (6 + c1.length) = _
  rw [Nat.zero_add, hsub, htr, hf0,
    if_pos (show ('i' :: 'f' :: ' ' :: '(' :: (c1 ++ [')']) : Str) ≠ [] from by
      exact List.cons_ne_nil _ _),
    tokLoop_advance_sub true C 1 (C.length + 1 - 1) (6 + c1.length) (6 + c1.length)
      (by omega)
      (fun k hk1 hk2 => by
        have hk : k = 6 + c1.length := by omega
        subst hk
        rw [hnl]
        exact (by decide : plainTok '\n'))
      (by omega),
    tokLoop_end true C (C.length + 1 - 1 - 1) (6 + c1.length + 1) (6 + c1.length)
      (by omega) (by omega),
    if_neg (by
      rintro ⟨-, h⟩
      exact h (by rw [hdropNl]; rfl))]
  rfl

/-- identifier-paren family: `@f(c1)` — the only `(` on the line immediately
follows an identifier character, so no control paren is found and no
promotion occurs. -/
theorem atIdentParenFamily (c1 : Str) (hc1 : ∀ c ∈ c1, plainLine c) :
    tokenizeSQLContent true ('@' :: 'f' :: '(' :: (c1 ++ [')', '\n'])) =
      [⟨.atLine, 'f' :: '(' :: (c1 ++ [')']), 0, 4 + c1.length⟩,
       ⟨.text, ['\n'], 4 + c1.length, 4 + c1.length⟩] := by
  set C : Str := '@' :: 'f' :: '(' :: (c1 ++ [')', '\n']) with hC
  have hlen : C.length = c1.length + 5 := by
    rw [hC]
    simp only [List.length_cons, List.length_append, List.length_nil]
    try omega
  have hS1 : C = ['@', 'f', '('] ++ (c1 ++ [')', '\n']) := by
    rw [hC]
    rfl
  have g3 : ∀ j, gc C (3 + j) = gc (c1 ++ [')', '\n']) j := fun j =>
    gc_split C _ _ 3 j hS1 rfl
  have hrp : gc C (3 + c1.length) = ')' := by
    rw [g3 c1.length]
    exact gc_at c1 ')' ['\n']
  have hnl : gc C (4 + c1.length) = '\n' := by
    rw [show (4 + c1.length : Nat) = 3 + (c1.length + 1) from by omega, g3,
      gc_append_right _ _ _ (by omega),
      show (c1.length + 1 - c1.length : Nat) = 1 from by omega]
    rfl
  have hfl : findLineEndBr C 1 0 = (4 + c1.length, none) := by
    rw [findLineEndBr,
      flebLoop_advance_sub C 0 (3 + c1.length) (C.length + 1) 1 none (by omega)
        (fun k hk1 hk2 => by
          by_cases hk3 : k < 3
          · have hk : k = 1 ∨ k = 2 := by omega
            rcases hk with rfl | rfl
            · rw [show gc C 1 = 'f' from by rw [hC]; rfl]
              exact ⟨by decide, by decide, by decide⟩
            · rw [show gc C 2 = '(' from by rw [hC]; rfl]
              exact ⟨by decide, by decide, by decide⟩
          · by_cases hkr : k = 3 + c1.length
            · subst hkr
              rw [hrp]
              exact ⟨by decide, by decide, by decide⟩
            · obtain ⟨j, rfl⟩ : ∃ j, k = 3 + j := ⟨k - 3, by omega⟩
              rw [g3 j, gc_append_left _ _ _ (by omega)]
              obtain ⟨p1, p2, p3, p4, p5, p6, p7, p8, p9, p10, p11, p12⟩ :=
                hc1 _ (gc_mem c1 j (by omega))
              exact ⟨p1, p2, p8⟩)
        (by omega),
      flebLoop_stop C 0 _ (1 + (3 + c1.length)) none (by omega)
        (Or.inr (Or.inl (by
          rw [show (1 + (3 + c1.length) : Nat) = 4 + c1.length from by omega]
          exact hnl)))]
    simp only [Prod.mk.injEq]
    exact ⟨by omega, trivial⟩
  have hsub : sub C 1 (4 + c1.length) = 'f' :: '(' :: (c1 ++ [')']) := by
    have hSA : C = ['@'] ++ (('f' :: '(' :: (c1 ++ [')'])) ++ ['\n']) := by
      rw [hC]; simp
    have h := sub_split C ['@'] ('f' :: '(' :: (c1 ++ [')'])) ['\n'] 1 hSA rfl
    have hml : ('f' :: '(' :: (c1 ++ [')']) : Str).length = c1.length + 3 := by
      simp only [List.length_cons, List.length_append, List.length_nil]
      try omega
    rw [hml] at h
    rw [show (4 + c1.length : Nat) = 1 + (c1.length + 3) from by omega]
    exact h
  have hdrop1 : C.drop 1 = 'f' :: '(' :: (c1 ++ [')', '\n']) := by
    rw [hC]
    rfl
  have hskipc : fcspSkipCall ('f' :: '(' :: (c1 ++ [')']))
      (('f' :: '(' :: (c1 ++ [')']) : Str).length + 1) (1 + 1) 1 =
      1 + 1 + c1.length + 1 := by
    have hLlen : ('f' :: '(' :: (c1 ++ [')']) : Str).length = c1.length + 3 := by
      simp only [List.length_cons, List.length_append, List.length_nil]
      try omega
    rw [fcspSkipCall_advance_sub ('f' :: '(' :: (c1 ++ [')'])) c1.length
        (('f' :: '(' :: (c1 ++ [')']) : Str).length + 1) (1 + 1) 1 (by omega) (by omega)
        (fun k hk1 hk2 => by
          obtain ⟨j, rfl⟩ : ∃ j, k = 2 + j := ⟨k - 2, by omega⟩
          rw [show (2 + j : Nat) = j + 1 + 1 from by omega, gc_cons_succ, gc_cons_succ,
            gc_append_left _ _ _ (by omega)]
          exact plainLine_paren _ (hc1 _ (gc_mem c1 j (by omega))))
        (by omega),
      fcspSkipCall_close ('f' :: '(' :: (c1 ++ [')']))
        (('f' :: '(' :: (c1 ++ [')']) : Str).length + 1 - c1.length) (1 + 1 + c1.length)
        (by omega) (by omega)
        (by
          rw [show (1 + 1 + c1.length : Nat) = c1.length + 1 + 1 from by omega,
            gc_cons_succ, gc_cons_succ]
          exact gc_at c1 ')' [])]
  have hfcsp : findControlStructureParen ('f' :: '(' :: (c1 ++ [')'])) = none := by
    have hLlen : ('f' :: '(' :: (c1 ++ [')']) : Str).length = c1.length + 3 := by
      simp only [List.length_cons, List.length_append, List.length_nil]
      try omega
    rw [findControlStructureParen,
      fcspLoop_advance_sub ('f' :: '(' :: (c1 ++ [')'])) 1
        (('f' :: '(' :: (c1 ++ [')']) : Str).length + 1) 0 none (by omega)
        (fun k hk1 hk2 => by
          have hk : k = 0 := by omega
          subst hk
          rw [show gc ('f' :: '(' :: (c1 ++ [')'])) 0 = 'f' from rfl]
          exact ⟨by decide, by decide, by decide, by decide⟩)
        (by omega),
      Nat.zero_add,
      fcspLoop_paren_ident ('f' :: '(' :: (c1 ++ [')']))
        (('f' :: '(' :: (c1 ++ [')']) : Str).length + 1 - 1) 1 none
        (by omega) (by omega) rfl rfl,
      hskipc,
      fcspLoop_end ('f' :: '(' :: (c1 ++ [')']))
        (('f' :: '(' :: (c1 ++ [')']) : Str).length + 1 - 1 - 1)
        (1 + 1 + c1.length + 1) none (by omega) (by omega)]
  have hsr : trySmartScopeProcessing true 0 (sub C 1 (4 + c1.length)) (C.drop 1) C =
      ⟨false, 0, 0, []⟩ := by
    rw [hsub, hdrop1, trySmartScopeProcessing,
      if_neg (by
        rintro (h | h)
        · exact h rfl
        · exact h rfl)]
    simp only [hfcsp]
  have htr : trimS ('f' :: '(' :: (c1 ++ [')'])) = 'f' :: '(' :: (c1 ++ [')']) := by
    rw [show ('f' :: '(' :: (c1 ++ [')']) : Str) = 'f' :: (('(' :: c1) ++ [')']) from by
      simp]
    exact trimS_edge 'f' ')' _ (by decide) (by decide)
  have hf0 : flushTok C 0 0 = [] := by
    rw [flushTok, if_neg (by rintro ⟨h, -⟩; omega)]
  have hdropNl : C.drop (4 + c1.length) = ['\n'] := by
    have hSd : C = ('@' :: 'f' :: '(' :: (c1 ++ [')'])) ++ ['\n'] := by
      rw [hC]; simp
    rw [hSd, show (4 + c1.length : Nat) =
      ('@' :: 'f' :: '(' :: (c1 ++ [')']) : Str).length from by
        simp only [List.length_cons, List.length_append, List.length_nil]
        omega,
      drop_at]
  rw [tokenizeSQLContent,
    tokLoop_atline true C (C.length + 1) 0 0 (4 + c1.length, none) ⟨false, 0, 0, []⟩
      (by omega) (by omega) (by rw [hC]; rfl)
      (by
        rintro ⟨-, h, -⟩
        rw [show gc C (0 + 1) = 'f' from by rw [hC]; rfl] at h
        exact absurd h (by decide))
      (by
        rw [show gc C (0 + 1) = 'f' from by rw [hC]; rfl]
        decide)
      hfl rfl hsr,
    if_neg (show ¬((⟨false, 0, 0, []⟩ : SmartScopeResult).shouldHandle = true) from by
      decide)]
  show flushTok C 0 0 ++
      (if trimS (sub C (0 + 1) (4 + c1.length)) ≠ [] then
        [⟨.atLine, trimS (sub C (0 + 1) (4 + c1.length)), 0, 4 + c1.length⟩] else []) ++
      ⟨.text, ['\n'], 4 + c1.length, 4 + c1.length⟩ ::
      tokLoop true C (C.length + 1 - 1) (4 + c1.length) (4 + c1.length) = _
  rw [Nat.zero_add, hsub, htr, hf0,
    if_pos (show ('f' :: '(' :: (c1 ++ [')']) : Str) ≠ [] from by
      exact List.cons_ne_nil _ _),
    tokLoop_advance_sub true C 1 (C.length + 1 - 1) (4 + c1.length) (4 + c1.length)
      (by omega)
      (fun k hk1 hk2 => by
        have hk : k = 4 + c1.length := by omega
        subst hk
        rw [hnl]
        exact (by decide : plainTok '\n'))
      (by omega),
    tokLoop_end true C (C.length + 1 - 1 - 1) (4 + c1.length + 1) (4 + c1.length)
      (by omega) (by omega),
    if_neg (by
      rintro ⟨-, h⟩
      exact h (by rw [hdropNl]; rfl))]
  rfl

/-- `AddParam` on a non-nil non-slice value: one `?`, one argument. -/
theorem AddParam_scalar (qb : QueryBuilder) (v : GoValue) (hv : v.isScalar) :
    qb.AddParam v = some ⟨qb.parts ++ ['?'], qb.args ++ [v]⟩ := by
  cases v with
  | vnil => exact absurd hv id
  | vslice l => exact absurd hv id
  | vstr s => rfl
  | vint n => rfl
  | vbool b => rfl
  | vquery s a => rfl

/-! ## Claims -/

/-- C1, counterexample: a file containing the bare prefix `Sql(` followed by
a backtick literal and `)` yields no discovered call site, and neither does
`runtime.Query(` — contradicting the claim that the finder recognizes the
prefixes `Sql(` and `runtime.Query(`.  (The finder matches only `gox.Sql(`;
the `runtime.Query(` comparison reads a 15-byte window and compares it to
the 14-byte pattern, which never succeeds.) -/
theorem C1_counterexample :
    findSQLBlocks "Sql(`SELECT 1`)".toList = [] ∧
    findSQLBlocks "runtime.Query(`X`)".toList = [] :=
  ⟨rfl, rfl⟩

/-- C2, counterexample: for the template body `SELECT (@@{ SELECT 1 }) FROM t`
the emitter produces exactly two builder statements —
`AddText("SELECT (")` and `AddText(") FROM t")` — and no statement for the
nested query at all, contradicting the claimed sequence
`AddText("SELECT (")`, `AddText(<nested Query>)`, `AddText(") FROM t")`:
a `@@{...}` directly among top-level SQL text is skipped by
`generateGoCodeForSQL` (its `SQLExprDoubleAtQuery` case is `continue`). -/
theorem C2_counterexample :
    emitNodeParts noParseOracle false 100 "q_builder".toList
        (tokensToNodes noParseOracle
          (tokenizeSQLContent false "SELECT (@@\x7b SELECT 1 \x7d) FROM t".toList)) =
      [addTextCall "q_builder".toList "SELECT (".toList,
       addTextCall "q_builder".toList ") FROM t".toList] ∧
    ¬ ∃ nested,
      emitNodeParts noParseOracle false 100 "q_builder".toList
          (tokensToNodes noParseOracle
            (tokenizeSQLContent false "SELECT (@@\x7b SELECT 1 \x7d) FROM t".toList)) =
        [addTextCall "q_builder".toList "SELECT (".toList, nested,
         addTextCall "q_builder".toList ") FROM t".toList] := by
  refine ⟨rfl, ?_⟩
  rintro ⟨nested, h⟩
  have hl := congrArg List.length h
  rw [show emitNodeParts noParseOracle false 100 "q_builder".toList
        (tokensToNodes noParseOracle
          (tokenizeSQLContent false "SELECT (@@\x7b SELECT 1 \x7d) FROM t".toList)) =
      [addTextCall "q_builder".toList "SELECT (".toList,
       addTextCall "q_builder".toList ") FROM t".toList] from rfl] at hl
  simp at hl

/-- C2, amended: a `@@{...}` that appears directly among top-level SQL text
of a template body is dropped by the emitter — for every parse oracle, fuel,
builder name and surrounding node lists, removing the `DoubleAtQuery` node
does not change the emitted statement list.  (In expression contexts —
`processCodeBlockExpressions`, `processSQLPartForParams`,
`processSmartScopeContent` — a `@@{...}` does compile to a self-contained
immediately-invoked expression; only the top-level node position is
skipped.) -/
theorem C2_doubleat_skipped_at_top_level (tp : ParseOracle) (smart : Bool) (fuel : Nat)
    (builderName : Str) (l1 l2 : List SQLNode) (c : Str) (ex : Option GoExpr) :
    emitNodeParts tp smart fuel builderName
        (l1 ++ .sqlExpression .exprDoubleAtQuery c ex :: l2) =
      emitNodeParts tp smart fuel builderName (l1 ++ l2) := by
  have h : emitNode tp smart fuel builderName (.sqlExpression .exprDoubleAtQuery c ex) = [] := by
    cases fuel <;> rfl
  simp only [emitNodeParts, List.map_append, List.flatten_append, List.map_cons,
    List.flatten_cons, h, List.nil_append]

/-- C3, counterexample: for the body `#{a} #{b}` the tokenizer emits only the
two Param tokens and no Text token at all — the whitespace-only run between
the two sigils is dropped (each flush is guarded by `TrimSpace(text) != ""`),
contradicting the claim that such runs are preserved as Text and that the
Text concatenation reproduces the body. -/
theorem C3_counterexample :
    tokenizeSQLContent false "#\x7ba\x7d #\x7bb\x7d".toList =
      [⟨.param, ['a'], 0, 4⟩, ⟨.param, ['b'], 5, 9⟩] ∧
    textConcat (tokenizeSQLContent false "#\x7ba\x7d #\x7bb\x7d".toList) = [] ∧
    ¬ ∃ t ∈ tokenizeSQLContent false "#\x7ba\x7d #\x7bb\x7d".toList,
        t.type = SQLTokenType.text := by
  refine ⟨rfl, rfl, ?_⟩
  decide

/-- C3, amended: what the tokenizer actually preserves.  (1) A run consisting
only of whitespace between two parameter sigils is dropped, not kept as Text:
for every all-whitespace `w`, the body `#\x7ba\x7d` ++ `w` ++ `#\x7bb\x7d`
tokenizes to exactly the two Param tokens.  (2) Text that contains no sigil
opener is preserved verbatim: for every single-line body with no
`\x7b`/`@`/`#`/`$` character, a nonblank trim and no `//`/`--` comment
prefix, concatenating the emitted Text fragments reproduces the body
exactly. -/
theorem C3_text_preservation :
    (∀ w : Str, (∀ c ∈ w, isSp c = true) →
      tokenizeSQLContent false ('#' :: '{' :: 'a' :: '}' :: (w ++ ['#', '{', 'b', '}'])) =
        [⟨.param, ['a'], 0, 4⟩, ⟨.param, ['b'], 4 + w.length, 8 + w.length⟩]) ∧
    (∀ s : Str, (∀ c ∈ s, plainTok c ∧ c ≠ '\n') → trimS s ≠ [] →
      isCommentLine s = false →
      textConcat (tokenizeSQLContent false s) = s) := by
  constructor
  · intro w hw
    set C : Str := '#' :: '{' :: 'a' :: '}' :: (w ++ ['#', '{', 'b', '}']) with hC
    have hlen : C.length = w.length + 8 := by simp [hC]
    have g4 : ∀ j, gc C (4 + j) = gc (w ++ ['#', '{', 'b', '}']) j := by
      intro j
      rw [hC, show 4 + j = j + 1 + 1 + 1 + 1 from by omega,
        gc_cons_succ, gc_cons_succ, gc_cons_succ, gc_cons_succ]
    have gT : ∀ j, gc C (4 + (w.length + j)) = gc ['#', '{', 'b', '}'] j := by
      intro j
      rw [g4 (w.length + j), gc_concat]
    have hm1 : findMatchingBrace C 2 = some (['a'], 3) := by
      have h := findMatchingBrace_plain C 2 1
        (fun k hk1 hk2 => by
          have hk : k = 2 := by omega
          subst hk
          rw [hC]
          exact (by decide : plainBrace 'a'))
        (by rw [hC]; rfl) (by omega)
      rw [h, hC]
      rfl
    rw [tokenizeSQLContent,
      tokLoop_param_step false C (C.length + 1) 0 0 ['a'] 3 (by omega) (by omega)
        (by rw [hC]; rfl) (by rw [hC]; rfl) hm1]
    have hf0 : flushTok C 0 0 = [] := by
      rw [flushTok, if_neg (by rintro ⟨h, -⟩; omega)]
    rw [hf0,
      tokLoop_advance_sub false C w.length (C.length + 1 - 1) (3 + 1) (3 + 1)
        (by omega)
        (fun k hk1 hk2 => by
          obtain ⟨j, rfl⟩ : ∃ j, k = 4 + j := ⟨k - 4, by omega⟩
          rw [g4 j, gc_append_left _ _ _ (by omega : j < w.length)]
          exact plainTok_of_isSp _ (hw _ (gc_mem w j (by omega))))
        (by omega)]
    have h2 : gc C (3 + 1 + w.length) = '#' := by
      rw [show 3 + 1 + w.length = 4 + (w.length + 0) from by omega, gT 0]
      rfl
    have h3 : gc C (3 + 1 + w.length + 1) = '{' := by
      rw [show 3 + 1 + w.length + 1 = 4 + (w.length + 1) from by omega, gT 1]
      rfl
    have hdrop : C.drop (3 + 1 + w.length + 2) = ['b', '}'] := by
      rw [hC, show 3 + 1 + w.length + 2 = 4 + (w.length + 2) from by omega,
        ← List.drop_drop]
      show ((w ++ ['#', '{', 'b', '}']).drop (w.length + 2)) = ['b', '}']
      rw [drop_concat]
      rfl
    have hm2 : findMatchingBrace C (3 + 1 + w.length + 2) = some (['b'], 7 + w.length) := by
      have h := findMatchingBrace_plain C (3 + 1 + w.length + 2) 1
        (fun k hk1 hk2 => by
          have hk : k = 3 + 1 + w.length + 2 := by omega
          subst hk
          rw [show 3 + 1 + w.length + 2 = 4 + (w.length + 2) from by omega, gT 2]
          exact (by decide : plainBrace 'b'))
        (by rw [show 3 + 1 + w.length + 2 + 1 = 4 + (w.length + 3) from by omega, gT 3]; rfl)
        (by omega)
      rw [h]
      have hsub : sub C (3 + 1 + w.length + 2) (3 + 1 + w.length + 2 + 1) = ['b'] := by
        rw [sub, hdrop,
          show 3 + 1 + w.length + 2 + 1 - (3 + 1 + w.length + 2) = 1 from by omega]
        rfl
      rw [hsub]
      simp only [Option.some.injEq, Prod.mk.injEq]
      exact ⟨trivial, by omega⟩
    rw [tokLoop_param_step false C (C.length + 1 - 1 - w.length) (3 + 1 + w.length) (3 + 1)
      ['b'] (7 + w.length) (by omega) (by omega) h2 h3 hm2]
    have hfw : flushTok C (3 + 1) (3 + 1 + w.length) = [] := by
      rw [flushTok, if_neg]
      rintro ⟨-, hne2⟩
      apply hne2
      have hsubw : sub C (3 + 1) (3 + 1 + w.length) = w := by
        rw [sub, hC]
        show ((w ++ ['#', '{', 'b', '}']).take (3 + 1 + w.length - (3 + 1))) = w
        rw [show 3 + 1 + w.length - (3 + 1) = w.length from by omega, List.take_left]
      rw [hsubw]
      exact trimS_sp_nil w hw
    rw [hfw,
      tokLoop_end false C (C.length + 1 - 1 - w.length - 1) (7 + w.length + 1)
        (7 + w.length + 1) (by omega) (by omega),
      if_neg (by rintro ⟨h, -⟩; omega),
      show 3 + 1 + w.length = 4 + w.length from by omega,
      show 7 + w.length + 1 = 8 + w.length from by omega]
    rfl
  · intro s hs htrim hcomm
    have hne : s ≠ [] := ne_nil_of_trimS s htrim
    rw [tokenizeSQLContent,
      tokLoop_advance_sub false s s.length (s.length + 1) 0 0 (by omega)
        (fun k hk1 hk2 => (hs (gc s k) (gc_mem s k (by omega))).1)
        (by omega),
      tokLoop_end false s (s.length + 1 - s.length) (0 + s.length) 0 (by omega) (by omega),
      List.drop_zero, if_pos ⟨List.length_pos.mpr hne, htrim⟩]
    simp [textConcat, textFragments,
      textPieces_single s (fun c hc => (hs c hc).2) hne hcomm]

/-- C3 witness: both amended conjuncts at concrete inputs — a one-space run
between `#\x7ba\x7d` and `#\x7bb\x7d` is dropped, and the plain body
`SELECT 1` round-trips. -/
theorem C3_text_preservation_witness :
    tokenizeSQLContent false ('#' :: '{' :: 'a' :: '}' :: ([' '] ++ ['#', '{', 'b', '}'])) =
      [⟨.param, ['a'], 0, 4⟩, ⟨.param, ['b'], 5, 9⟩] ∧
    textConcat (tokenizeSQLContent false "SELECT 1".toList) = "SELECT 1".toList :=
  ⟨C3_text_preservation.1 [' '] (by decide),
   C3_text_preservation.2 "SELECT 1".toList (by decide) (by decide) (by decide)⟩

/-- C4: the compiler's write path ignores the input file entirely — the
output of `processGoxFile` always goes to `c.DestPath` (made absolute
against the working directory), so any two inputs compiled with the same
configuration are written to the same path, while the derived
`X.gox.go ↦ X_gen.go` mapping (still used for the incremental skip check)
distinguishes them.  This contradicts the claim (and the incremental check
and `*_gen.go` cleanup logic of the same file, which assume the derived
mapping). -/
theorem C4_written_path_ignores_input :
    (∀ (c : CompilerCfg) (cwd p q : Str), writtenPath c cwd p = writtenPath c cwd q) ∧
    incrementalCheckPath "a.gox.go".toList = "a_gen.go".toList ∧
    incrementalCheckPath "b.gox.go".toList = "b_gen.go".toList ∧
    incrementalCheckPath "a.gox.go".toList ≠ incrementalCheckPath "b.gox.go".toList := by
  refine ⟨fun c cwd p q => rfl, rfl, rfl, ?_⟩
  decide

/-- C5, counterexample: for the body
`SELECT * FROM t @if cond { AND x = #{x} }` with smart-scope off, the
emitted statement list is not the claimed sequence
`AddText("SELECT * FROM t ")`, `AddText("\n")`, `AddText("if cond ")`,
`AddText("\n")`, `AddText(" AND x = ")`, `AddParam(x)`. -/
theorem C5_counterexample :
    emitNodeParts noParseOracle false 100 "q_builder".toList
        (tokensToNodes noParseOracle
          (tokenizeSQLContent false
            "SELECT * FROM t @if cond \x7b AND x = #\x7bx\x7d \x7d".toList)) ≠
      [addTextCall "q_builder".toList "SELECT * FROM t ".toList,
       addTextCall "q_builder".toList ['\n'],
       addTextCall "q_builder".toList "if cond ".toList,
       addTextCall "q_builder".toList ['\n'],
       addTextCall "q_builder".toList " AND x = ".toList,
       addParamCallRaw "q_builder".toList ['x']] := by
  decide

/-- C5, amended: for the body `SELECT * FROM t @if cond { AND x = #{x} }`
with smart-scope off the emitted statements are exactly
`AddText("SELECT * FROM t ")`, `AddText("if cond")` (the AtLine content,
trailing space trimmed, with no preceding newline), `AddText("")` and
`AddText("\n")` (the newline Text node inserted between the AtLine and the
code block), and the code block emitted as host code with `#{x}` rewritten
in place to `q_builder.AddParam(x)` — not as `AddText`/`AddParam` of SQL
text. -/
theorem C5_actual_emission :
    emitNodeParts noParseOracle false 100 "q_builder".toList
        (tokensToNodes noParseOracle
          (tokenizeSQLContent false
            "SELECT * FROM t @if cond \x7b AND x = #\x7bx\x7d \x7d".toList)) =
      [addTextCall "q_builder".toList "SELECT * FROM t ".toList,
       addTextCall "q_builder".toList "if cond".toList,
       addTextCall "q_builder".toList [],
       addTextCall "q_builder".toList ['\n'],
       "AND x = q_builder.AddParam(x)".toList] :=
  rfl

/-- C6: parameter order is textual order.  For every body
`#\x7be1\x7d#\x7be2\x7d#\x7be3\x7d` (each `ei` brace- and quote-free), the
tokenizer emits the three Param tokens in textual order, and running the
builder calls generated for them — one `AddParam` per sigil — against an
empty builder yields a Query whose args are the values of `e1`, `e2`, `e3`
in that same order, for every environment assigning each expression a
non-nil non-slice value. -/
theorem C6_param_order (e1 e2 e3 : Str) (env : Str → GoValue)
    (h1 : ∀ c ∈ e1, plainBrace c) (h2 : ∀ c ∈ e2, plainBrace c)
    (h3 : ∀ c ∈ e3, plainBrace c)
    (hv1 : (env e1).isScalar) (hv2 : (env e2).isScalar) (hv3 : (env e3).isScalar) :
    tokenizeSQLContent false
        ('#' :: '{' :: (e1 ++ '}' :: '#' :: '{' :: (e2 ++ '}' :: '#' :: '{' :: (e3 ++ ['}'])))) =
      [⟨.param, e1, 0, e1.length + 3⟩,
       ⟨.param, e2, e1.length + 3, e1.length + e2.length + 6⟩,
       ⟨.param, e3, e1.length + e2.length + 6, e1.length + e2.length + e3.length + 9⟩] ∧
    ((runCalls
        ((tokenizeSQLContent false
          ('#' :: '{' :: (e1 ++ '}' :: '#' :: '{' :: (e2 ++ '}' :: '#' :: '{' ::
            (e3 ++ ['}']))))).flatMap (callsOfToken env)) ⟨[], []⟩).map
      fun qb => qb.Build.args) = some [env e1, env e2, env e3] := by
  set C : Str :=
    '#' :: '{' :: (e1 ++ '}' :: '#' :: '{' :: (e2 ++ '}' :: '#' :: '{' :: (e3 ++ ['}'])))
    with hC
  have hlen : C.length = e1.length + e2.length + e3.length + 9 := by
    rw [hC]
    simp only [List.length_cons, List.length_append, List.length_nil]
    omega
  have hS1 : C = ['#', '{'] ++
      (e1 ++ ('}' :: '#' :: '{' :: (e2 ++ '}' :: '#' :: '{' :: (e3 ++ ['}'])))) := by
    rw [hC]
    rfl
  have hA1 : (['#', '{'] : Str).length = 2 := rfl
  have hS1b : C = ('#' :: '{' :: (e1 ++ ['}'])) ++
      ('#' :: '{' :: (e2 ++ '}' :: '#' :: '{' :: (e3 ++ ['}']))) := by
    rw [hC]; simp
  have hA1b : ('#' :: '{' :: (e1 ++ (['}'] : Str))).length = e1.length + 3 := by
    simp only [List.length_cons, List.length_append, List.length_nil]
    try omega
  have hS2 : C = ('#' :: '{' :: (e1 ++ ['}', '#', '{'])) ++
      (e2 ++ ('}' :: '#' :: '{' :: (e3 ++ ['}']))) := by
    rw [hC]; simp
  have hA2 : ('#' :: '{' :: (e1 ++ (['}', '#', '{'] : Str))).length = e1.length + 5 := by
    simp only [List.length_cons, List.length_append, List.length_nil]
    try omega
  have hS2b : C = ('#' :: '{' :: (e1 ++ '}' :: '#' :: '{' :: (e2 ++ ['}']))) ++
      ('#' :: '{' :: (e3 ++ ['}'])) := by
    rw [hC]; simp
  have hA2b : ('#' :: '{' :: (e1 ++ '}' :: '#' :: '{' :: (e2 ++ (['}'] : Str)))).length =
      e1.length + e2.length + 6 := by
    simp only [List.length_cons, List.length_append, List.length_nil]
    try omega
  have hS3 : C = ('#' :: '{' :: (e1 ++ '}' :: '#' :: '{' :: (e2 ++ ['}', '#', '{']))) ++
      (e3 ++ ['}']) := by
    rw [hC]; simp
  have hA3 : ('#' :: '{' :: (e1 ++ '}' :: '#' :: '{' ::
      (e2 ++ (['}', '#', '{'] : Str)))).length = e1.length + e2.length + 8 := by
    simp only [List.length_cons, List.length_append, List.length_nil]
    try omega
  have hm1 : findMatchingBrace C 2 = some (e1, 2 + e1.length) := by
    have h := findMatchingBrace_plain C 2 e1.length
      (fun k hk1 hk2 => by
        obtain ⟨j, rfl⟩ : ∃ j, k = 2 + j := ⟨k - 2, by omega⟩
        rw [gc_split C _ _ 2 j hS1 hA1, gc_append_left _ _ _ (by omega)]
        exact h1 _ (gc_mem e1 j (by omega)))
      (by rw [gc_split C _ _ 2 e1.length hS1 hA1]; exact gc_at e1 '}' _)
      (by omega)
    rw [h, sub_split C ['#', '{'] e1 _ 2 hS1 hA1]
  have hm2 : findMatchingBrace C (e1.length + 3 + 2) = some (e2, e1.length + e2.length + 5) := by
    rw [show (e1.length + 3 + 2 : Nat) = e1.length + 5 from by omega]
    have h := findMatchingBrace_plain C (e1.length + 5) e2.length
      (fun k hk1 hk2 => by
        obtain ⟨j, rfl⟩ : ∃ j, k = e1.length + 5 + j := ⟨k - e1.length - 5, by omega⟩
        rw [gc_split C _ _ (e1.length + 5) j hS2 hA2, gc_append_left _ _ _ (by omega)]
        exact h2 _ (gc_mem e2 j (by omega)))
      (by rw [gc_split C _ _ (e1.length + 5) e2.length hS2 hA2]; exact gc_at e2 '}' _)
      (by omega)
    rw [h, sub_split C _ e2 _ (e1.length + 5) hS2 hA2]
    simp only [Option.some.injEq, Prod.mk.injEq]
    exact ⟨trivial, by omega⟩
  have hm3 : findMatchingBrace C (e1.length + e2.length + 6 + 2) =
      some (e3, e1.length + e2.length + e3.length + 8) := by
    rw [show (e1.length + e2.length + 6 + 2 : Nat) = e1.length + e2.length + 8 from by omega]
    have h := findMatchingBrace_plain C (e1.length + e2.length + 8) e3.length
      (fun k hk1 hk2 => by
        obtain ⟨j, rfl⟩ : ∃ j, k = e1.length + e2.length + 8 + j :=
          ⟨k - e1.length - e2.length - 8, by omega⟩
        rw [gc_split C _ _ (e1.length + e2.length + 8) j hS3 hA3,
          gc_append_left _ _ _ (by omega)]
        exact h3 _ (gc_mem e3 j (by omega)))
      (by rw [gc_split C _ _ (e1.length + e2.length + 8) e3.length hS3 hA3]
          exact gc_at e3 '}' _)
      (by omega)
    rw [h, sub_split C _ e3 _ (e1.length + e2.length + 8) hS3 hA3]
    simp only [Option.some.injEq, Prod.mk.injEq]
    exact ⟨trivial, by omega⟩
  have htok : tokenizeSQLContent false C =
      [⟨.param, e1, 0, e1.length + 3⟩,
       ⟨.param, e2, e1.length + 3, e1.length + e2.length + 6⟩,
       ⟨.param, e3, e1.length + e2.length + 6, e1.length + e2.length + e3.length + 9⟩] := by
    rw [tokenizeSQLContent,
      tokLoop_param_step false C (C.length + 1) 0 0 e1 (2 + e1.length) (by omega) (by omega)
        (by rw [hC]; rfl) (by rw [hC]; rfl) hm1]
    have hf0 : flushTok C 0 0 = [] := by
      rw [flushTok, if_neg (by rintro ⟨h, -⟩; omega)]
    rw [hf0, show (2 + e1.length + 1 : Nat) = e1.length + 3 from by omega]
    rw [tokLoop_param_step false C (C.length + 1 - 1) (e1.length + 3) (e1.length + 3) e2
      (e1.length + e2.length + 5) (by omega) (by omega)
      (by rw [show (e1.length + 3 : Nat) = e1.length + 3 + 0 from by omega,
            gc_split C _ _ (e1.length + 3) 0 hS1b hA1b]; rfl)
      (by rw [gc_split C _ _ (e1.length + 3) 1 hS1b hA1b]; rfl)
      hm2]
    have hf1 : flushTok C (e1.length + 3) (e1.length + 3) = [] := by
      rw [flushTok, if_neg (by rintro ⟨h, -⟩; omega)]
    rw [hf1, show (e1.length + e2.length + 5 + 1 : Nat) = e1.length + e2.length + 6
      from by omega]
    rw [tokLoop_param_step false C (C.length + 1 - 1 - 1) (e1.length + e2.length + 6)
      (e1.length + e2.length + 6) e3 (e1.length + e2.length + e3.length + 8)
      (by omega) (by omega)
      (by rw [show (e1.length + e2.length + 6 : Nat) = e1.length + e2.length + 6 + 0
            from by omega,
            gc_split C _ _ (e1.length + e2.length + 6) 0 hS2b hA2b]; rfl)
      (by rw [gc_split C _ _ (e1.length + e2.length + 6) 1 hS2b hA2b]; rfl)
      hm3]
    have hf2 : flushTok C (e1.length + e2.length + 6) (e1.length + e2.length + 6) = [] := by
      rw [flushTok, if_neg (by rintro ⟨h, -⟩; omega)]
    rw [hf2, show (e1.length + e2.length + e3.length + 8 + 1 : Nat) =
      e1.length + e2.length + e3.length + 9 from by omega]
    rw [tokLoop_end false C (C.length + 1 - 1 - 1 - 1)
      (e1.length + e2.length + e3.length + 9) (e1.length + e2.length + e3.length + 9)
      (by omega) (by omega), if_neg (by rintro ⟨h, -⟩; omega)]
    rfl
  refine ⟨htok, ?_⟩
  rw [htok]
  have step : ∀ (qb : QueryBuilder) (v : GoValue) (rest : List BuilderCall), v.isScalar →
      runCalls (.callAddParam v :: rest) qb =
        runCalls rest ⟨qb.parts ++ ['?'], qb.args ++ [v]⟩ := by
    intro qb v rest hv
    rw [runCalls, AddParam_scalar qb v hv]
    rfl
  show ((runCalls
      [.callAddParam (env e1), .callAddParam (env e2), .callAddParam (env e3)]
      ⟨[], []⟩).map fun qb => qb.Build.args) = some [env e1, env e2, env e3]
  rw [step _ (env e1) _ hv1, step _ (env e2) _ hv2, step _ (env e3) _ hv3]
  rfl

/-- C6, witness: the three-parameter body `#\x7ba\x7d#\x7bb\x7d#\x7bc\x7d`
under an environment sending every expression to an integer. -/
theorem C6_param_order_witness :
    tokenizeSQLContent false
        ('#' :: '{' :: (['a'] ++ '}' :: '#' :: '{' :: (['b'] ++ '}' :: '#' :: '{' ::
          (['c'] ++ ['}'])))) =
      [⟨.param, ['a'], 0, 4⟩, ⟨.param, ['b'], 4, 8⟩, ⟨.param, ['c'], 8, 12⟩] ∧
    ((runCalls
        ((tokenizeSQLContent false
          ('#' :: '{' :: (['a'] ++ '}' :: '#' :: '{' :: (['b'] ++ '}' :: '#' :: '{' ::
            (['c'] ++ ['}']))))).flatMap
          (callsOfToken (fun _ => GoValue.vint 1))) ⟨[], []⟩).map
      fun qb => qb.Build.args) = some [.vint 1, .vint 1, .vint 1] :=
  C6_param_order ['a'] ['b'] ['c'] (fun _ => GoValue.vint 1)
    (by decide) (by decide) (by decide) trivial trivial trivial

/-- C7, counterexample: the standalone `#{...}` sweep of
`processCodeBlockExpressions` counts braces without skipping string
literals: on the code block `x := #{f("}")}` it takes the `}` inside the
double-quoted literal as the closer (parameter expression `f("`), while
`findMatchingBrace` — which the claim says every brace walk uses — skips the
literal and closes at position 13 with content `f("}")`. -/
theorem C7_counterexample :
    processCodeBlockExpressions noParseOracle false 100
        "x := #\x7bf(\"\x7d\")\x7d".toList "b".toList =
      "x := b.AddParam(f(\")\")\x7d".toList ∧
    findMatchingBrace "x := #\x7bf(\"\x7d\")\x7d".toList 7 =
      some ("f(\"\x7d\")".toList, 13) ∧
    processCodeBlockExpressions noParseOracle false 100
        "x := #\x7bf(\"\x7d\")\x7d".toList "b".toList ≠
      "x := b.AddParam(f(\"\x7d\"))".toList := by
  refine ⟨rfl, rfl, ?_⟩
  decide

/-- C7, amended: `findMatchingBrace` itself does skip all three string
flavors — for every quote `q` in `"`,`'`,`` ` `` and every literal body
without `q` or a backslash (braces allowed!), the walk over
`q lit q \x7d` steps over the whole literal and closes at the final brace —
but the standalone `#\x7b`/`$\x7b` sweeps of `processCodeBlockExpressions`
count braces with no string skipping at all (the counterexample above), so
the claim fails for those two walks. -/
theorem C7_findMatchingBrace_skips_strings (q : Char) (lit : Str)
    (hq : q = '"' ∨ q = '\'' ∨ q = '`')
    (hlit : ∀ c ∈ lit, c ≠ q ∧ c ≠ '\\') :
    findMatchingBrace (q :: (lit ++ [q, '}'])) 0 =
      some (q :: (lit ++ [q]), lit.length + 2) := by
  set C : Str := q :: (lit ++ [q, '}']) with hC
  have hlen : C.length = lit.length + 3 := by
    rw [hC]
    simp only [List.length_cons, List.length_append, List.length_nil]
    try omega
  have g1 : ∀ j, gc C (1 + j) = gc (lit ++ [q, '}']) j := fun j => by
    rw [show (1 + j : Nat) = j + 1 from by omega, hC, gc_cons_succ]
  have hgc0 : gc C 0 = q := by rw [hC]; rfl
  have hcq : gc C (1 + lit.length) = q := by
    rw [g1 lit.length]
    exact gc_at lit q ['}']
  have hskip : skipStringLiteral C 0 q = lit.length + 2 := by
    have h := skipStringLiteral_over C 0 lit.length q hgc0 (by omega)
      (fun k hk1 hk2 => by
        obtain ⟨j, rfl⟩ : ∃ j, k = 1 + j := ⟨k - 1, by omega⟩
        rw [g1 j, gc_append_left _ _ _ (by omega)]
        exact hlit _ (gc_mem lit j (by omega)))
      (by rw [show (0 + 1 + lit.length : Nat) = 1 + lit.length from by omega]; exact hcq)
      (by omega)
    rw [h]
    omega
  have hcbr : gc C (lit.length + 2) = '}' := by
    rw [show (lit.length + 2 : Nat) = 1 + (lit.length + 1) from by omega, g1,
      gc_append_right _ _ _ (by omega),
      show (lit.length + 1 - lit.length : Nat) = 1 from by omega]
    rfl
  have hsub : sub C 0 (lit.length + 2) = q :: (lit ++ [q]) := by
    rw [sub, List.drop_zero, Nat.sub_zero]
    have hsplit : C = (q :: (lit ++ [q])) ++ ['}'] := by rw [hC]; simp
    rw [hsplit, ← (show (q :: (lit ++ [q])).length = lit.length + 2 from by
        simp only [List.length_cons, List.length_append, List.length_nil]
        try omega),
      List.take_left]
  rw [findMatchingBrace,
    fmbLoop_quote_step C 0 (C.length + 1) 0 1 (by omega) (by omega) (by omega)
      (by rw [hgc0]; exact hq),
    hgc0, hskip,
    fmbLoop_close C 0 (C.length + 1 - 1) (lit.length + 2) (by omega) (by omega) hcbr,
    hsub]

/-- C7, witness: a `\x7d` inside a double-quoted literal does not close the
brace walk. -/
theorem C7_findMatchingBrace_skips_strings_witness :
    findMatchingBrace ('"' :: (['}'] ++ ['"', '}'])) 0 =
      some ('"' :: (['}'] ++ ['"']), 3) :=
  C7_findMatchingBrace_skips_strings '"' ['}'] (Or.inl rfl) (by decide)

/-- C8: smart-scope AtLine promotion.  With smart-scope on: (1) when the
line tail after `@` holds a control-structure `(` (not preceded by an
identifier character) whose matching `)` lies beyond the line end — family
`@if (c1⏎c2)` — the tokenizer emits a single AtBlock whose content spans
from just after the `@` to the end of the line containing the `)`, followed
by a Text token containing the newline; (2) if the matching `)` lies on the
same line — family `@if (c1)` — no promotion happens (an ordinary AtLine is
emitted); (3) if the only `(` follows an identifier character — family
`@f(c1)` — no promotion happens either. -/
theorem C8_smart_scope_promotion :
    (∀ c1 c2 : Str, (∀ c ∈ c1, plainLine c) → (∀ c ∈ c2, plainLine c) →
      tokenizeSQLContent true
          ('@' :: 'i' :: 'f' :: ' ' :: '(' :: (c1 ++ '\n' :: (c2 ++ [')']))) =
        [⟨.atBlock, 'i' :: 'f' :: ' ' :: '(' :: (c1 ++ '\n' :: (c2 ++ [')'])), 0,
          c1.length + c2.length + 7⟩,
         ⟨.text, ['\n'], c1.length + c2.length + 7, c1.length + c2.length + 7⟩]) ∧
    (∀ c1 : Str, (∀ c ∈ c1, plainLine c) →
      tokenizeSQLContent true ('@' :: 'i' :: 'f' :: ' ' :: '(' :: (c1 ++ [')', '\n'])) =
        [⟨.atLine, 'i' :: 'f' :: ' ' :: '(' :: (c1 ++ [')']), 0, 6 + c1.length⟩,
         ⟨.text, ['\n'], 6 + c1.length, 6 + c1.length⟩]) ∧
    (∀ c1 : Str, (∀ c ∈ c1, plainLine c) →
      tokenizeSQLContent true ('@' :: 'f' :: '(' :: (c1 ++ [')', '\n'])) =
        [⟨.atLine, 'f' :: '(' :: (c1 ++ [')']), 0, 4 + c1.length⟩,
         ⟨.text, ['\n'], 4 + c1.length, 4 + c1.length⟩]) :=
  ⟨atPromotionFamily, atSameLineFamily, atIdentParenFamily⟩

/-- C8, witness: the three families at `@if (x⏎y)`, `@if (x)` and `@f(x)`. -/
theorem C8_smart_scope_promotion_witness :
    tokenizeSQLContent true
        ('@' :: 'i' :: 'f' :: ' ' :: '(' :: (['x'] ++ '\n' :: (['y'] ++ [')']))) =
      [⟨.atBlock, 'i' :: 'f' :: ' ' :: '(' :: (['x'] ++ '\n' :: (['y'] ++ [')'])), 0, 9⟩,
       ⟨.text, ['\n'], 9, 9⟩] ∧
    tokenizeSQLContent true ('@' :: 'i' :: 'f' :: ' ' :: '(' :: (['x'] ++ [')', '\n'])) =
      [⟨.atLine, 'i' :: 'f' :: ' ' :: '(' :: (['x'] ++ [')']), 0, 7⟩,
       ⟨.text, ['\n'], 7, 7⟩] ∧
    tokenizeSQLContent true ('@' :: 'f' :: '(' :: (['x'] ++ [')', '\n'])) =
      [⟨.atLine, 'f' :: '(' :: (['x'] ++ [')']), 0, 5⟩, ⟨.text, ['\n'], 5, 5⟩] :=
  ⟨C8_smart_scope_promotion.1 ['x'] ['y'] (by decide) (by decide),
   C8_smart_scope_promotion.2.1 ['x'] (by decide),
   C8_smart_scope_promotion.2.2 ['x'] (by decide)⟩

/-- C9, counterexample: for the body `ab#{cd` (unmatched `#{`), tokenization
succeeds and the opener stays literal, but the text `ab` preceding the
opener is emitted twice — once as its own Text token when the sigil branch
flushes, and again inside the final Text token, because `textStart` is not
advanced on a failed match.  The emitted text concatenation is `abab#{cd`,
not the claimed exactly-once `ab#{cd`. -/
theorem C9_counterexample :
    tokenizeSQLContent false "ab#\x7bcd".toList =
      [⟨.text, "ab".toList, 0, 2⟩, ⟨.text, "ab#\x7bcd".toList, 0, 6⟩] ∧
    textConcat (tokenizeSQLContent false "ab#\x7bcd".toList) = "abab#\x7bcd".toList ∧
    textConcat (tokenizeSQLContent false "ab#\x7bcd".toList) ≠ "ab#\x7bcd".toList := by
  refine ⟨rfl, rfl, ?_⟩
  decide

/-- C9, amended: for every body `t ++ #\x7b ++ e` whose `#\x7b` is unmatched
(no closing brace follows), tokenization succeeds and the opener stays
literal text, but the preceding text is emitted twice, not once: the sigil
branch flushes `t` as a Text token without advancing `textStart` on the
failed match, and the final flush then emits the whole body — including `t`
again — as a second Text token. -/
theorem C9_unmatched_opener (t e : Str)
    (ht : ∀ c ∈ t, plainTok c) (htr : trimS t ≠ [])
    (he : ∀ c ∈ e, plainTok c ∧ plainBrace c) :
    tokenizeSQLContent false (t ++ '#' :: '{' :: e) =
      [⟨.text, t, 0, t.length⟩,
       ⟨.text, t ++ '#' :: '{' :: e, 0, t.length + e.length + 2⟩] := by
  set C : Str := t ++ '#' :: '{' :: e with hC
  have hlen : C.length = t.length + e.length + 2 := by
    rw [hC]
    simp only [List.length_append, List.length_cons]
    omega
  have gP : ∀ j, gc C (t.length + j) = gc ('#' :: '{' :: e) j := fun j => by
    rw [hC, gc_concat]
  have hmb : findMatchingBrace C (t.length + 2) = none := by
    apply findMatchingBrace_plain_none
    intro k hk1 hk2
    obtain ⟨j, rfl⟩ : ∃ j, k = t.length + (2 + j) := ⟨k - t.length - 2, by omega⟩
    rw [gP (2 + j), show (2 + j : Nat) = j + 1 + 1 from by omega, gc_cons_succ, gc_cons_succ]
    exact (he _ (gc_mem e j (by omega))).2
  rw [tokenizeSQLContent,
    tokLoop_advance_sub false C t.length (C.length + 1) 0 0 (by omega)
      (fun k hk1 hk2 => by
        rw [hC, gc_append_left _ _ _ (by omega)]
        exact ht _ (gc_mem t k (by omega)))
      (by omega),
    Nat.zero_add]
  have h2 : gc C (t.length + 2 - 2) = '#' := by
    rw [show (t.length + 2 - 2 : Nat) = t.length + 0 from by omega, gP 0]
    rfl
  rw [tokLoop_param_fail false C (C.length + 1 - t.length) t.length 0 (by omega)
    (by omega)
    (by rw [show (t.length : Nat) = t.length + 2 - 2 from by omega]; exact h2)
    (by rw [gP 1]; rfl)
    (by rw [show (t.length + 2 : Nat) = t.length + 2 from rfl]; exact hmb)]
  have hflush : flushTok C 0 t.length = [⟨.text, t, 0, t.length⟩] := by
    have hsubt : sub C 0 t.length = t := by
      rw [sub, hC, List.drop_zero, Nat.sub_zero, List.take_left]
    rw [flushTok, hsubt,
      if_pos ⟨List.length_pos.mpr (ne_nil_of_trimS t htr), htr⟩]
  rw [hflush,
    tokLoop_brace_after_sigil false C (C.length + 1 - t.length - 1) (t.length + 1) 0
      (by omega) (by omega)
      (by rw [gP 1]; rfl)
      (by
        rintro (h | ⟨h, -⟩)
        · exact absurd h (by omega)
        · exact h (by
            rw [show (t.length + 1 - 1 : Nat) = t.length + 0 from by omega, gP 0]
            rfl)),
    tokLoop_advance_sub false C e.length (C.length + 1 - t.length - 1 - 1)
      (t.length + 1 + 1) 0 (by omega)
      (fun k hk1 hk2 => by
        obtain ⟨j, rfl⟩ : ∃ j, k = t.length + (2 + j) := ⟨k - t.length - 2, by omega⟩
        rw [gP (2 + j), show (2 + j : Nat) = j + 1 + 1 from by omega,
          gc_cons_succ, gc_cons_succ]
        exact (he _ (gc_mem e j (by omega))).1)
      (by omega)]
  have htrC : trimS C ≠ [] := by
    intro hnil
    have hall := sp_of_trimS_nil C hnil
    have hg : gc C (t.length + 0) = '#' := by rw [gP 0]; rfl
    have hin := gc_mem C (t.length + 0) (by omega)
    rw [hg] at hin
    exact absurd (hall '#' hin) (by decide)
  rw [tokLoop_end false C (C.length + 1 - t.length - 1 - 1 - e.length)
      (t.length + 1 + 1 + e.length) 0 (by omega) (by omega),
    List.drop_zero, if_pos ⟨by omega, htrC⟩, hlen]
  rfl

/-- C9, witness: the amended behaviour at `ab#\x7bcd`. -/
theorem C9_unmatched_opener_witness :
    tokenizeSQLContent false ("ab".toList ++ '#' :: '{' :: "cd".toList) =
      [⟨.text, "ab".toList, 0, 2⟩,
       ⟨.text, "ab".toList ++ '#' :: '{' :: "cd".toList, 0, 6⟩] :=
  C9_unmatched_opener "ab".toList "cd".toList (by decide) (by decide) (by decide)

/-- C10: `Builder.AddParam` panics on a nil interface value (the
`reflect.TypeOf(nil)` result is nil and `Kind()` dereferences it); for every
non-nil non-slice argument it appends exactly one `?` to the SQL text and
the argument to `args`; for every slice it appends one `?` per element
separated by commas and the elements to `args` in index order. -/
theorem C10_addparam_semantics :
    (∀ qb : QueryBuilder, qb.AddParam .vnil = none) ∧
    (∀ (qb : QueryBuilder) (v : GoValue), v.isScalar →
      qb.AddParam v = some ⟨qb.parts ++ ['?'], qb.args ++ [v]⟩) ∧
    (∀ (qb : QueryBuilder) (elems : List GoValue),
      qb.AddParam (.vslice elems) =
        some ⟨qb.parts ++ sliceParts true elems, qb.args ++ elems⟩) ∧
    (∀ elems : List GoValue,
      sliceParts true elems =
        match elems with
        | [] => []
        | _ :: rest => '?' :: (List.replicate rest.length [',', '?']).flatten) := by
  refine ⟨fun qb => rfl, ?_, fun qb elems => rfl, ?_⟩
  · intro qb v hv
    cases v with
    | vnil => exact absurd hv id
    | vslice elems => exact absurd hv id
    | vstr s => rfl
    | vint n => rfl
    | vbool b => rfl
    | vquery sql args => rfl
  · intro elems
    have h : ∀ l : List GoValue,
        sliceParts false l = (List.replicate l.length [',', '?']).flatten := by
      intro l
      induction l with
      | nil => rfl
      | cons w r ih =>
        simp only [sliceParts, List.length_cons, List.replicate, List.flatten_cons]
        rw [ih]
        simp
    cases elems with
    | nil => rfl
    | cons v rest => simp [sliceParts, h]

/-- C10, witness: the three behaviours at concrete inputs. -/
theorem C10_addparam_semantics_witness :
    QueryBuilder.AddParam ⟨[], []⟩ (.vint 3) = some ⟨['?'], [.vint 3]⟩ :=
  C10_addparam_semantics.2.1 ⟨[], []⟩ (.vint 3) trivial

/-- C1, amended: the top-level call finder recognizes the prefix `gox.Sql(`
(not the bare `Sql(`, and never `runtime.Query(`, whose comparison window is
one byte longer than the pattern): for every backtick-free template body
`b`, the file `gox.Sql(` followed by the backtick literal holding `b` and
the closing `)` yields exactly one discovered call site spanning the whole
call, whose content is `b`. -/
theorem C1_gox_sql_call_found (b : Str) (hb : ∀ c ∈ b, c ≠ '`') :
    findSQLBlocks ("gox.Sql(`".toList ++ (b ++ "`)".toList)) =
      [⟨0, b.length + 11, b⟩] := by
  set content := "gox.Sql(`".toList ++ (b ++ "`)".toList) with hcontent
  have hP9 : ("gox.Sql(`".toList : Str).length = 9 := rfl
  have hlen : content.length = b.length + 11 := by
    rw [hcontent]; simp
  have h0 : gc content 0 = 'g' := by
    rw [hcontent, gc_append_left _ _ _ (by decide)]; rfl
  have hq8 : gc content 8 = '`' := by
    rw [hcontent, gc_append_left _ _ _ (by decide)]; rfl
  have hmid : ∀ k, 9 ≤ k → k < 9 + b.length → gc content k ≠ '`' := by
    intro k hk1 hk2
    rw [hcontent, gc_append_right _ _ _ (by rw [hP9]; omega), hP9]
    rw [gc_append_left _ _ _ (by omega)]
    exact hb _ (gc_mem b (k - 9) (by omega))
  have hq9b : gc content (9 + b.length) = '`' := by
    rw [hcontent, gc_append_right _ _ _ (by rw [hP9]; omega), hP9]
    have h1 : 9 + b.length - 9 = b.length := by omega
    rw [h1, gc_append_right _ _ _ (le_refl _), Nat.sub_self]
    rfl
  have hclosechar : gc content (9 + b.length + 1) = ')' := by
    rw [hcontent, gc_append_right _ _ _ (by rw [hP9]; omega), hP9]
    have h1 : 9 + b.length + 1 - 9 = b.length + 1 := by omega
    rw [h1, gc_append_right _ _ _ (by omega)]
    have h2 : b.length + 1 - b.length = 1 := by omega
    rw [h2]
    rfl
  have hsub8 : sub content 0 8 = "gox.Sql(".toList := by
    rw [hcontent]
    show sub (("gox.Sql(".toList : Str) ++ ('`' :: (b ++ "`)".toList))) 0 8 = _
    rw [sub, List.drop_zero, Nat.sub_zero]
    show (("gox.Sql(".toList : Str) ++ _).take ("gox.Sql(".toList : Str).length = _
    rw [List.take_left]
  have hj : skipWSNl content 8 = 8 :=
    skipWSNl_stop content 8 (by rw [hq8]; decide)
  have hsqlsub : sub content 9 (9 + b.length) = b := by
    have h := sub_mid "gox.Sql(`".toList b "`)".toList
    rw [hP9] at h
    rw [hcontent]
    exact h
  have hfmq : findMatchingQuote content 9 '`' true = some (9 + b.length) := by
    rw [findMatchingQuote, hlen]
    rw [fmqLoop_advance_sub content '`' b.length (b.length + 11 + 1) 9 (by omega) hmid
      (by omega)]
    exact fmqLoop_stop' content '`' true _ _ (by omega) (by omega) hq9b
  have hclose : skipWSNl content (9 + b.length + 1) = 9 + b.length + 1 :=
    skipWSNl_stop content _ (by rw [hclosechar]; decide)
  rw [findSQLBlocks, hlen, fsbLoop]
  simp only [Nat.zero_add]
  rw [if_pos (by omega)]
  rw [if_neg (by rw [h0]; decide)]
  rw [if_pos (⟨by omega, hsub8⟩ :
    8 ≤ content.length ∧ sub content 0 8 = "gox.Sql(".toList)]
  simp only [hj]
  rw [if_neg (by omega)]
  rw [if_pos (Or.inl hq8)]
  simp only [hq8]
  simp only [show (8 : Nat) + 1 = 9 from rfl,
    show (decide ('`' = '`') : Bool) = true from rfl,
    show (decide True : Bool) = true from rfl, hfmq]
  simp only [hclose]
  rw [if_neg (by push_neg; exact ⟨by omega, by rw [hclosechar]⟩)]
  simp only [hsqlsub]
  rw [fsbLoop_end' content _ _ (by omega) (by omega)]
  simp only [List.cons.injEq, and_true, SQLBlockInfo.mk.injEq]
  exact ⟨trivial, by omega⟩

/-- C1, witness. -/
theorem C1_gox_sql_call_found_witness :
    findSQLBlocks ("gox.Sql(`".toList ++ ("SELECT 1".toList ++ "`)".toList)) =
      [⟨0, "SELECT 1".toList.length + 11, "SELECT 1".toList⟩] :=
  C1_gox_sql_call_found "SELECT 1".toList (by decide)

end Gox
